import Mathlib

/-!
# Verification of the semantic-memory layer (marcotte-dev)

Shallow embedding of the memory-lifecycle and retrieval pipeline:
the memory janitor (`services/spot-mcp-server/src/memory_janitor.py`),
the filter builder (`common/filters.py`), the storage connector
(`src/mcp_server_qdrant/qdrant.py`), the code chunker
(`analysis/code_chunker.py`), the BM25 sparse embedder
(`sparse_embedder.py`), the file-hash change tracker (`incremental.py`)
and the local reranker (`reranker.py`).

Numeric values the Python code handles as ints/floats are modelled as
`ℚ` (exact arithmetic); the one genuinely transcendental quantity
(`math.log` in the BM25 scores) is modelled over `ℝ` with `Real.log`.
Python dicts keyed by the fixed metadata keys the code reads are
modelled as a structure of `Option`-valued fields, where a missing key
is `none` and `dict.get(k, d)` is `Option.getD`.
-/

namespace SpotMCP

/-! ## Memory data model

`Entry` objects as materialised by `MemoryJanitor._get_all_memories`:
payload document text, the metadata dict, the point id and the stored
embedding vector (which can be absent). -/

/-- The metadata keys read or written anywhere in `memory_janitor.py`,
as optional fields (a Python dict with a missing key reads as `none`). -/
structure Meta where
  project : Option String := none
  workspace_name : Option String := none
  category : Option String := none
  tags : Option String := none
  timestamp : Option ℚ := none
  last_accessed : Option ℚ := none
  access_count : Option ℕ := none
  merged_count : Option ℕ := none
  last_merge : Option ℚ := none
  health_score : Option ℚ := none
  health_updated_at : Option ℚ := none
  deriving DecidableEq, Repr

/-- A Python dict is falsy exactly when it is empty; the janitor tests
`if ... and memory.metadata:` with that meaning. -/
def Meta.isEmpty (m : Meta) : Bool :=
  m.project = none && m.workspace_name = none && m.category = none &&
  m.tags = none && m.timestamp = none && m.last_accessed = none &&
  m.access_count = none && m.merged_count = none && m.last_merge = none &&
  m.health_score = none && m.health_updated_at = none

/-- One stored memory as loaded by `_get_all_memories`: payload document,
metadata map, point id, stored (named) vector extracted by `_extract_vector`. -/
structure Mem where
  id : ℕ
  content : String
  metadata : Meta
  vector : Option (List ℚ) := none
  deriving DecidableEq, Repr

/-- `(m.metadata or {}).get("timestamp", 0)`, the timestamp reading used by
`_merge_memories`, `resolve_conflicts`'s sort key and `_detect_conflicts`
(the latter's `float(...)` conversion is the identity on numeric values). -/
def tsOf (m : Mem) : ℚ := m.metadata.timestamp.getD 0

/-! ## Health scoring (`MemoryJanitor._calculate_health_score`) -/

/-- `created = meta.get("timestamp", now)`. -/
def createdOf (now : ℚ) (m : Mem) : ℚ := m.metadata.timestamp.getD now

/-- `last_accessed = meta.get("last_accessed", created)`. -/
def lastAccessedOf (now : ℚ) (m : Mem) : ℚ :=
  m.metadata.last_accessed.getD (createdOf now m)

/-- `access_count = meta.get("access_count", 0)`. -/
def accessCountOf (m : Mem) : ℕ := m.metadata.access_count.getD 0

/-- Age factor: `max(0, 100 - (age_days / 365 * 50))` with
`age_days = (now - created) / 86400`. -/
def ageScore (now : ℚ) (m : Mem) : ℚ :=
  max 0 (100 - ((now - createdOf now m) / 86400) / 365 * 50)

/-- Recency factor: `max(0, 100 - (recency_days / 180 * 100))` with
`recency_days = (now - last_accessed) / 86400`. -/
def recencyScore (now : ℚ) (m : Mem) : ℚ :=
  max 0 (100 - ((now - lastAccessedOf now m) / 86400) / 180 * 100)

/-- Usage factor: `min(100, access_count * 10)`. -/
def usageScore (m : Mem) : ℚ := min 100 ((accessCountOf m : ℚ) * 10)

/-- `_calculate_health_score`: the weighted average
`(age_score * 0.3) + (recency_score * 0.4) + (usage_score * 0.3)`. -/
def healthScore (now : ℚ) (m : Mem) : ℚ :=
  ageScore now m * 0.3 + recencyScore now m * 0.4 + usageScore m * 0.3

/-! ## Workspace normalization (`_normalize_workspace_name`, `_infer_workspace`) -/

/-- A character matched by the regex class `[\w\-]` (ASCII view of
Python's `\w` plus hyphen): kept as-is by `re.sub(r"[^\w\-]", "-", ...)`. -/
def isWordOrHyphen (c : Char) : Bool := c.isAlphanum || c = '_' || c = '-'

/-- `re.sub(r"-+", "-", s)`: collapse each run of hyphens to a single one. -/
def collapseHyphens : List Char → List Char
  | [] => []
  | [c] => [c]
  | a :: b :: rest =>
      if a = '-' && b = '-' then collapseHyphens (b :: rest)
      else a :: collapseHyphens (b :: rest)

/-- `s.strip("-")`: drop leading and trailing hyphens. -/
def stripHyphens (l : List Char) : List Char :=
  ((l.dropWhile (· = '-')).reverse.dropWhile (· = '-')).reverse

/-- `_normalize_workspace_name`: lowercase, replace non-`[\w\-]` characters
with hyphens, collapse hyphen runs, strip outer hyphens. -/
def normalizeWorkspaceName (s : String) : String :=
  let lowered := s.toList.map Char.toLower
  let replaced := lowered.map (fun c => if isWordOrHyphen c then c else '-')
  String.mk (stripHyphens (collapseHyphens replaced))

/-- The fixed `known_projects` list of `_infer_workspace`. -/
def knownProjects : List String :=
  ["eboot-app-code", "eboot-webapp-backend", "eboot-webapp-frontend",
   "eboot-mortician", "meta-granitenet", "marcotte-dev", "spot-mcp-server"]

/-- Python's `needle in hay` substring test. -/
def containsSub (needle hay : String) : Bool :=
  decide (needle.toList <:+: hay.toList)

/-- `_infer_workspace`: first known project appearing in the (lowercased)
tags string, else the first appearing in the lowercased content. -/
def inferWorkspace (content : String) (metadata : Meta) : Option String :=
  let tags := metadata.tags.getD ""
  match knownProjects.find? (fun p => containsSub p tags.toLower) with
  | some p => some p
  | none => knownProjects.find? (fun p => containsSub p content.toLower)

/-! ## Store mutation primitives

`_delete_memory` deletes a point by id; `_update_memory_metadata` re-upserts
the point with the same document and vector but replaced metadata.  The
store is the list of points in scroll order; a deletion log records
`(point id, reason)` pairs. -/

/-- Deletion of a point id (`_delete_memory`); deleting an absent id is a
no-op, as in Qdrant. -/
def deleteId (st : List Mem) (i : ℕ) : List Mem := st.filter (fun m => m.id ≠ i)

/-- `_update_memory_metadata`: replace the metadata of the point with the
given id, keeping document and vector. -/
def upsertMeta (st : List Mem) (i : ℕ) (meta : Meta) : List Mem :=
  st.map (fun m => if m.id = i then { m with metadata := meta } else m)

/-! ## Phase 0: `fix_workspace_metadata` -/

/-- The `needs_update` branch logic of `fix_workspace_metadata` for one
memory: `some updated` when the memory's metadata gets rewritten. -/
def workspaceUpdate (m : Mem) : Option Meta :=
  let meta := m.metadata
  match meta.project, meta.workspace_name with
  | some p, none => some { meta with workspace_name := some (normalizeWorkspaceName p) }
  | _, some w =>
      if normalizeWorkspaceName w ≠ w then
        some { meta with workspace_name := some (normalizeWorkspaceName w) }
      else none
  | none, none =>
      if meta.category = some "decision" || meta.category = some "pattern" then
        match inferWorkspace m.content meta with
        | some inferred => some { meta with workspace_name := some inferred }
        | none => none
      else none

/-- Phase 0 over the whole store: iterate the scrolled snapshot, upserting
each memory whose metadata needs a workspace fix. -/
def fixWorkspacePhase (store : List Mem) : List Mem :=
  store.foldl
    (fun st m =>
      match workspaceUpdate m with
      | some meta => upsertMeta st m.id meta
      | none => st)
    store

/-! ## Phase 0.5: `fix_category_metadata` -/

/-- The fixed `valid_categories` list. -/
def validCategories : List String :=
  ["decision", "pattern", "memory", "architecture", "error", "lesson",
   "codebase", "other"]

/-- Python's `str.strip()`: drop leading and trailing whitespace. -/
def pyStrip (s : String) : String :=
  String.mk
    (((s.toList.dropWhile Char.isWhitespace).reverse.dropWhile
        Char.isWhitespace).reverse)

/-- `not memory.content or memory.content.strip() == ""`. -/
def isBlankContent (s : String) : Bool := s = "" || pyStrip s = ""

/-- Phase 0.5: delete empty and suspiciously short (< 10 chars stripped)
memories, recategorize invalid categories to `"memory"`. -/
def fixCategoryPhase (store : List Mem) : List Mem × List (ℕ × String) :=
  store.foldl
    (fun acc m =>
      if isBlankContent m.content then
        (deleteId acc.1 m.id, acc.2 ++ [(m.id, "empty content")])
      else if (pyStrip m.content).length < 10 then
        (deleteId acc.1 m.id, acc.2 ++ [(m.id, "suspiciously short content")])
      else if (m.metadata.category.getD "memory") ∉ validCategories then
        (upsertMeta acc.1 m.id { m.metadata with category := some "memory" }, acc.2)
      else acc)
    (store, [])

/-! ## Cosine similarity (`_calculate_similarity`)

The code computes `dot(v1,v2) / (norm(v1) * norm(v2))` (0 when a vector is
missing or has zero norm) and compares it against a threshold.  Over exact
rationals the comparison `cos(v, w) ≥ θ` is encoded without square roots
by a sign analysis of the dot product; `simGE_iff_cosine` below proves the
encoding equal to the real-valued cosine comparison. -/

/-- Dot product of two stored vectors (`np.dot` on equal-length vectors). -/
def dotQ (v w : List ℚ) : ℚ := (List.zipWith (· * ·) v w).sum

/-- `cos(v, w) ≥ θ` for stored vectors, exactly: the code's
`similarity >= threshold` where `similarity` is 0 if either norm is 0 and
`dot / (norm * norm)` otherwise. -/
def simGE (θ : ℚ) (v w : List ℚ) : Bool :=
  if dotQ v v = 0 || dotQ w w = 0 then decide ((0 : ℚ) ≥ θ)
  else if 0 ≤ dotQ v w then
    decide (θ ≤ 0 ∨ θ ^ 2 * dotQ v v * dotQ w w ≤ dotQ v w ^ 2)
  else decide (θ ≤ 0 ∧ dotQ v w ^ 2 ≤ θ ^ 2 * dotQ v v * dotQ w w)

/-- `_calculate_similarity(mem1, mem2) >= θ`: similarity is 0.0 when either
vector is missing. -/
def calcSimGE (θ : ℚ) (m1 m2 : Mem) : Bool :=
  match m1.vector, m2.vector with
  | some v1, some v2 => simGE θ v1 v2
  | _, _ => decide ((0 : ℚ) ≥ θ)

/-- A dot product of a vector with itself is nonnegative. -/
theorem dotQ_self_nonneg (v : List ℚ) : 0 ≤ dotQ v v := by
  induction v with
  | nil => simp [dotQ]
  | cons a v ih =>
    have h : dotQ (a :: v) (a :: v) = a * a + dotQ v v := by
      simp [dotQ]
    rw [h]
    nlinarith

/-- The real number `_calculate_similarity` computes:
`np.dot(v1, v2) / (norm(v1) * norm(v2))`, and 0 when either norm is 0. -/
noncomputable def cosineSim (v w : List ℚ) : ℝ :=
  if Real.sqrt ((dotQ v v : ℚ) : ℝ) = 0 ∨ Real.sqrt ((dotQ w w : ℚ) : ℝ) = 0 then 0
  else ((dotQ v w : ℚ) : ℝ) /
    (Real.sqrt ((dotQ v v : ℚ) : ℝ) * Real.sqrt ((dotQ w w : ℚ) : ℝ))

/-- The rational, square-root-free test `simGE` decides exactly the
comparison `threshold ≤ cosine similarity` that the code performs over
floats. -/
theorem simGE_iff_cosine (θ : ℚ) (v w : List ℚ) :
    simGE θ v w = true ↔ (θ : ℝ) ≤ cosineSim v w := by
  have hp := dotQ_self_nonneg v
  have hq := dotQ_self_nonneg w
  by_cases h0 : dotQ v v = 0 ∨ dotQ w w = 0
  · have hcond : (decide (dotQ v v = 0) || decide (dotQ w w = 0)) = true := by
      rcases h0 with h | h <;> simp [h]
    have hsqrt : Real.sqrt ((dotQ v v : ℚ) : ℝ) = 0 ∨
        Real.sqrt ((dotQ w w : ℚ) : ℝ) = 0 := by
      rcases h0 with h | h
      · left; rw [h]; simp
      · right; rw [h]; simp
    simp only [simGE, cosineSim]
    rw [if_pos hcond, if_pos hsqrt]
    simp only [decide_eq_true_eq, ge_iff_le]
    constructor <;> intro h <;> exact_mod_cast h
  · push_neg at h0
    have hppos : (0 : ℚ) < dotQ v v := lt_of_le_of_ne hp (Ne.symm h0.1)
    have hqpos : (0 : ℚ) < dotQ w w := lt_of_le_of_ne hq (Ne.symm h0.2)
    have hpR : (0 : ℝ) < ((dotQ v v : ℚ) : ℝ) := by exact_mod_cast hppos
    have hqR : (0 : ℝ) < ((dotQ w w : ℚ) : ℝ) := by exact_mod_cast hqpos
    have hn1 : (0 : ℝ) < Real.sqrt ((dotQ v v : ℚ) : ℝ) := Real.sqrt_pos.mpr hpR
    have hn2 : (0 : ℝ) < Real.sqrt ((dotQ w w : ℚ) : ℝ) := Real.sqrt_pos.mpr hqR
    have hn12 : (0 : ℝ) <
        Real.sqrt ((dotQ v v : ℚ) : ℝ) * Real.sqrt ((dotQ w w : ℚ) : ℝ) :=
      mul_pos hn1 hn2
    have hcond : ¬ ((decide (dotQ v v = 0) || decide (dotQ w w = 0)) = true) := by
      simp [h0.1, h0.2]
    have hnor : ¬ (Real.sqrt ((dotQ v v : ℚ) : ℝ) = 0 ∨
        Real.sqrt ((dotQ w w : ℚ) : ℝ) = 0) := by
      push_neg
      exact ⟨ne_of_gt hn1, ne_of_gt hn2⟩
    have hsq : (Real.sqrt ((dotQ v v : ℚ) : ℝ) *
        Real.sqrt ((dotQ w w : ℚ) : ℝ)) ^ 2 =
        ((dotQ v v : ℚ) : ℝ) * ((dotQ w w : ℚ) : ℝ) := by
      rw [mul_pow, Real.sq_sqrt hpR.le, Real.sq_sqrt hqR.le]
    simp only [simGE, cosineSim]
    rw [if_neg hcond, if_neg hnor, le_div_iff₀ hn12]
    set n12 : ℝ :=
      Real.sqrt ((dotQ v v : ℚ) : ℝ) * Real.sqrt ((dotQ w w : ℚ) : ℝ) with hn12def
    by_cases ha : 0 ≤ dotQ v w
    · have haR : (0 : ℝ) ≤ ((dotQ v w : ℚ) : ℝ) := by exact_mod_cast ha
      rw [if_pos ha]
      simp only [decide_eq_true_eq]
      constructor
      · rintro (hθ | hsqle)
        · have hθR : (θ : ℝ) ≤ 0 := by exact_mod_cast hθ
          nlinarith
        · have hR : (θ : ℝ) ^ 2 * ((dotQ v v : ℚ) : ℝ) * ((dotQ w w : ℚ) : ℝ) ≤
              ((dotQ v w : ℚ) : ℝ) ^ 2 := by exact_mod_cast hsqle
          by_cases hθ : (θ : ℝ) ≤ 0
          · nlinarith
          · push_neg at hθ
            by_contra hcon
            push_neg at hcon
            nlinarith [hsq, hn12, haR]
      · intro hle
        by_cases hθ : θ ≤ 0
        · exact Or.inl hθ
        · refine Or.inr ?_
          push_neg at hθ
          have hθR : (0 : ℝ) < (θ : ℝ) := by exact_mod_cast hθ
          have hx : (0 : ℝ) ≤ (θ : ℝ) * n12 := by positivity
          have hsq2 : ((θ : ℝ) * n12) ^ 2 ≤ ((dotQ v w : ℚ) : ℝ) ^ 2 := by
            nlinarith [mul_le_mul hle hle hx haR]
          have hR : (θ : ℝ) ^ 2 * ((dotQ v v : ℚ) : ℝ) * ((dotQ w w : ℚ) : ℝ) ≤
              ((dotQ v w : ℚ) : ℝ) ^ 2 := by
            nlinarith [hsq, hsq2, sq_nonneg ((θ : ℝ))]
          exact_mod_cast hR
    · have haR : ((dotQ v w : ℚ) : ℝ) < 0 := by
        have hlt : dotQ v w < 0 := lt_of_not_le ha
        exact_mod_cast hlt
      rw [if_neg ha]
      simp only [decide_eq_true_eq]
      constructor
      · rintro ⟨hθ, hsqle⟩
        have hθR : (θ : ℝ) ≤ 0 := by exact_mod_cast hθ
        have hR : ((dotQ v w : ℚ) : ℝ) ^ 2 ≤
            (θ : ℝ) ^ 2 * ((dotQ v v : ℚ) : ℝ) * ((dotQ w w : ℚ) : ℝ) := by
          exact_mod_cast hsqle
        have hθn : (θ : ℝ) * n12 ≤ 0 :=
          mul_nonpos_of_nonpos_of_nonneg hθR hn12.le
        by_contra hcon
        push_neg at hcon
        nlinarith [hsq]
      · intro hle
        have hθ0 : (θ : ℝ) ≤ 0 := by nlinarith
        refine ⟨by exact_mod_cast hθ0, ?_⟩
        have hR : ((dotQ v w : ℚ) : ℝ) ^ 2 ≤
            (θ : ℝ) ^ 2 * ((dotQ v v : ℚ) : ℝ) * ((dotQ w w : ℚ) : ℝ) := by
          nlinarith [hsq]
        exact_mod_cast hR

/-! ## Phase 1: `deduplicate_memories` / `_merge_memories` -/

/-- Grouping key of `deduplicate_memories`:
`(meta.get("category", "memory"), meta.get("workspace_name", ""))`. -/
def dedupKey (m : Mem) : String × String :=
  (m.metadata.category.getD "memory", m.metadata.workspace_name.getD "")

/-- `defaultdict(list)` grouping: keys in first-appearance order, each
group's members in store order. -/
def groupInsert {κ : Type} [DecidableEq κ] (k : κ) (m : Mem) :
    List (κ × List Mem) → List (κ × List Mem)
  | [] => [(k, [m])]
  | (k', ms) :: rest =>
      if k' = k then (k', ms ++ [m]) :: rest else (k', ms) :: groupInsert k m rest

/-- Group the scrolled snapshot by a key function, preserving order. -/
def groupByKey {κ : Type} [DecidableEq κ] (key : Mem → κ) (ms : List Mem) :
    List (κ × List Mem) :=
  ms.foldl (fun gs m => groupInsert (key m) m gs) []

/-- `_merge_memories` keeps `mem1` when `ts1 >= ts2`, else `mem2`; the
other one is the deletion victim. -/
def mergeVictim (m1 m2 : Mem) : Mem := if tsOf m1 ≥ tsOf m2 then m2 else m1

/-- The keeper of `_merge_memories`: `mem1 if ts1 >= ts2 else mem2`. -/
def mergeKeeper (m1 m2 : Mem) : Mem := if tsOf m1 ≥ tsOf m2 then m1 else m2

/-- The pairwise loop of `deduplicate_memories` over one group snapshot:
every pair `(i, j)` with `i < j` whose similarity reaches the threshold
triggers `_merge_memories`, which deletes the victim from the store
(reason `"duplicate"`).  The merge-counter update `_merge_memories`
performs touches only the in-memory keeper object and is never upserted,
so it does not appear in the store. -/
def dedupPairs (θ : ℚ) : List Mem → List Mem × List (ℕ × String) →
    List Mem × List (ℕ × String)
  | [], acc => acc
  | m :: rest, acc =>
      dedupPairs θ rest
        (rest.foldl
          (fun a m2 =>
            if calcSimGE θ m m2 then
              (deleteId a.1 (mergeVictim m m2).id,
               a.2 ++ [((mergeVictim m m2).id, "duplicate")])
            else a)
          acc)

/-- Phase 1 over the whole store. -/
def dedupPhase (θ : ℚ) (store : List Mem) : List Mem × List (ℕ × String) :=
  (groupByKey dedupKey store).foldl
    (fun acc g => if g.2.length < 2 then acc else dedupPairs θ g.2 acc)
    (store, [])

/-! ## Phase 2: `resolve_conflicts` / `_group_by_topic` / `_detect_conflicts` -/

/-- Topic key of `_group_by_topic`:
`f"{meta.get('category', 'memory')}:{meta.get('workspace_name', 'global')}"`. -/
def topicKey (m : Mem) : String :=
  m.metadata.category.getD "memory" ++ ":" ++ m.metadata.workspace_name.getD "global"

/-- One row of `_detect_conflicts`: `mem1` plus every later memory with
similarity ≥ 0.75 and timestamps more than one day (86400 s) apart. -/
def conflictRow (m : Mem) (rest : List Mem) : List Mem :=
  m :: rest.filter
    (fun m2 => calcSimGE 0.75 m m2 && decide (|tsOf m - tsOf m2| > 86400))

/-- The row loop of `_detect_conflicts`: keep the rows that picked up at
least one conflicting partner. -/
def detectConflictRows : List Mem → List (List Mem)
  | [] => []
  | m :: rest =>
      (if (conflictRow m rest).length > 1 then [conflictRow m rest] else []) ++
      detectConflictRows rest

/-- `_detect_conflicts` (returns `[]` outright on fewer than 2 memories). -/
def detectConflicts (ms : List Mem) : List (List Mem) :=
  if ms.length < 2 then [] else detectConflictRows ms

/-- Python's stable `sorted(..., reverse=True)` by a rational key:
descending, earlier elements first among equal keys. -/
def insertDescBy {α : Type} (key : α → ℚ) (a : α) : List α → List α
  | [] => [a]
  | b :: bs => if key a ≥ key b then a :: b :: bs else b :: insertDescBy key a bs

/-- Stable descending sort by key (insertion sort). -/
def sortDescBy {α : Type} (key : α → ℚ) : List α → List α
  | [] => []
  | a :: as => insertDescBy key a (sortDescBy key as)

/-- Archive one conflict group: keep the newest (head after the descending
sort by timestamp), delete the rest with reason `"superseded_by_newer"`. -/
def archiveConflictGroup (cg : List Mem) (acc : List Mem × List (ℕ × String)) :
    List Mem × List (ℕ × String) :=
  ((sortDescBy tsOf cg).drop 1).foldl
    (fun a old => (deleteId a.1 old.id, a.2 ++ [(old.id, "superseded_by_newer")]))
    acc

/-- Phase 2 over the whole store. -/
def conflictPhase (store : List Mem) : List Mem × List (ℕ × String) :=
  (groupByKey topicKey store).foldl
    (fun acc g =>
      if g.2.length < 2 then acc
      else (detectConflicts g.2).foldl (fun a cg => archiveConflictGroup cg a) acc)
    (store, [])

/-! ## Phase 3: `archive_stale_memories` -/

/-- Janitor construction parameters (`similarity_threshold`,
`stale_threshold_days`, `min_access_count`); defaults `(0.90, 365, 1)`. -/
structure Janitor where
  similarity_threshold : ℚ := 0.90
  stale_threshold_days : ℕ := 365
  min_access_count : ℕ := 1

/-- `meta.get("last_accessed", meta.get("timestamp", 0))` (the `float(...)`
conversion is the identity on numeric values). -/
def lastAccessedRaw (m : Mem) : ℚ :=
  m.metadata.last_accessed.getD (m.metadata.timestamp.getD 0)

/-- The staleness test: last access before `now - stale_threshold_days`
days and `access_count` below `min_access_count`. -/
def isStale (J : Janitor) (now : ℚ) (m : Mem) : Bool :=
  decide (lastAccessedRaw m < now - (J.stale_threshold_days : ℚ) * 86400 ∧
    accessCountOf m < J.min_access_count)

/-- Phase 3: delete every stale memory (reason `"stale"`). -/
def stalePhase (J : Janitor) (now : ℚ) (store : List Mem) :
    List Mem × List (ℕ × String) :=
  store.foldl
    (fun acc m =>
      if isStale J now m then (deleteId acc.1 m.id, acc.2 ++ [(m.id, "stale")])
      else acc)
    (store, [])

/-! ## Phase 4: `update_health_scores` -/

/-- The phase-4 rewrite of one memory: skipped when the metadata dict is
empty (falsy); otherwise `health_score` and `health_updated_at` are set
and the point is re-upserted with the same document and vector. -/
def healthMem (now : ℚ) (m : Mem) : Mem :=
  if m.metadata.isEmpty then m
  else
    { m with
      metadata :=
        { m.metadata with
          health_score := some (healthScore now m)
          health_updated_at := some now } }

/-- Phase 4 over the whole store. -/
def healthPhase (now : ℚ) (store : List Mem) : List Mem :=
  store.map (healthMem now)

/-! ## `run_maintenance`: the phases in order -/

/-- One full maintenance cycle: workspace cleanup, category cleanup,
deduplication, conflict resolution, stale archiving, health scoring.
Returns the resulting store and the deletion log. -/
def runMaintenance (J : Janitor) (now : ℚ) (store : List Mem) :
    List Mem × List (ℕ × String) :=
  let s0 := fixWorkspacePhase store
  let r1 := fixCategoryPhase s0
  let r2 := dedupPhase J.similarity_threshold r1.1
  let r3 := conflictPhase r2.1
  let r4 := stalePhase J now r3.1
  (healthPhase now r4.1, r1.2 ++ r2.2 ++ r3.2 ++ r4.2)

/-! ## Theorems: health scoring (claim C3) -/

/-- The age component as the specification words it: "linear decay to 50
over 2 years", i.e. from 100 down to 50 across 730 days.  Modelled from
the spec for comparison with the code's `ageScore`. -/
def specAgeScore (now : ℚ) (m : Mem) : ℚ :=
  max 0 (100 - ((now - createdOf now m) / 86400) / 730 * 50)

/-- Claim C3 as stated: the health score is the 0.3/0.4/0.3 blend whose
age component decays linearly to 50 over 2 years, and the score always
lies in [0, 100]. -/
def healthClaimC3 : Prop :=
  ∀ (now : ℚ) (m : Mem),
    healthScore now m =
      specAgeScore now m * 0.3 + recencyScore now m * 0.4 + usageScore m * 0.3 ∧
    0 ≤ healthScore now m ∧ healthScore now m ≤ 100

/-- A memory created exactly 730 days before `now` and accessed at `now`. -/
def twoYearMem : Mem :=
  { id := 0, content := "two year old memory",
    metadata := { timestamp := some 0, last_accessed := some (730 * 86400) } }

/-- A memory whose creation timestamp lies 730 days in the future of `now = 0`. -/
def futureMem : Mem :=
  { id := 0, content := "future-dated memory",
    metadata := { timestamp := some (730 * 86400) } }

/-- C3 counterexample: at a memory aged exactly 2 years the code's age
component is 0, not the 50 the spec's wording implies (health 40 ≠ 55),
and a future-dated memory scores above 100; claim C3 as stated is false. -/
theorem healthClaimC3_false :
    ¬ healthClaimC3 ∧ healthScore 0 futureMem > 100 := by
  constructor
  · intro h
    have h1 := (h (730 * 86400) twoYearMem).1
    norm_num [healthScore, specAgeScore, ageScore, recencyScore, usageScore,
      createdOf, lastAccessedOf, accessCountOf, twoYearMem, max_def, min_def] at h1
  · norm_num [healthScore, ageScore, recencyScore, usageScore, createdOf,
      lastAccessedOf, accessCountOf, futureMem, max_def, min_def]

/-- C3 (amended): the health score equals the 0.3/0.4/0.3 blend of the
code's components, where the age component decays linearly at 50 points
per year — reaching 50 after 1 year and 0 after 2 years — and the score
lies in [0, 100] provided the creation and last-access timestamps do not
lie in the future. -/
theorem health_score_blend_and_range (now : ℚ) (m : Mem)
    (hc : createdOf now m ≤ now) (ha : lastAccessedOf now m ≤ now) :
    healthScore now m =
      ageScore now m * 0.3 + recencyScore now m * 0.4 + usageScore m * 0.3 ∧
    0 ≤ healthScore now m ∧ healthScore now m ≤ 100 ∧
    (createdOf now m = now - 365 * 86400 → ageScore now m = 50) ∧
    (now - createdOf now m ≥ 730 * 86400 → ageScore now m = 0) := by
  have hage0 : (0 : ℚ) ≤ ageScore now m := le_max_left _ _
  have hrec0 : (0 : ℚ) ≤ recencyScore now m := le_max_left _ _
  have husage0 : (0 : ℚ) ≤ usageScore m := by
    refine le_min (by norm_num) ?_
    have : (0 : ℚ) ≤ (accessCountOf m : ℚ) := by positivity
    linarith
  have hage100 : ageScore now m ≤ 100 := by
    refine max_le (by norm_num) ?_
    have h1 : (0 : ℚ) ≤ now - createdOf now m := by linarith
    have h2 : (0 : ℚ) ≤ ((now - createdOf now m) / 86400) / 365 * 50 :=
      mul_nonneg
        (div_nonneg (div_nonneg h1 (by norm_num)) (by norm_num)) (by norm_num)
    linarith
  have hrec100 : recencyScore now m ≤ 100 := by
    refine max_le (by norm_num) ?_
    have h1 : (0 : ℚ) ≤ now - lastAccessedOf now m := by linarith
    have h2 : (0 : ℚ) ≤ ((now - lastAccessedOf now m) / 86400) / 180 * 100 :=
      mul_nonneg
        (div_nonneg (div_nonneg h1 (by norm_num)) (by norm_num)) (by norm_num)
    linarith
  have husage100 : usageScore m ≤ 100 := min_le_left _ _
  refine ⟨rfl, ?_, ?_, ?_, ?_⟩
  · rw [healthScore]
    have h3 : (0.3 : ℚ) = 3 / 10 := by norm_num
    have h4 : (0.4 : ℚ) = 4 / 10 := by norm_num
    rw [h3, h4]
    nlinarith
  · rw [healthScore]
    have h3 : (0.3 : ℚ) = 3 / 10 := by norm_num
    have h4 : (0.4 : ℚ) = 4 / 10 := by norm_num
    rw [h3, h4]
    nlinarith
  · intro h
    rw [ageScore, h]
    norm_num
  · intro h
    rw [ageScore]
    have h2 : ((now - createdOf now m) / 86400) / 365 * 50 ≥ 100 := by
      rw [ge_iff_le, div_div, div_mul_eq_mul_div,
        le_div_iff₀ (by norm_num : (0:ℚ) < 86400 * 365)]
      linarith
    have : (100 : ℚ) - ((now - createdOf now m) / 86400) / 365 * 50 ≤ 0 := by linarith
    exact max_eq_left this

/-- Witness for `health_score_blend_and_range` at a concrete one-year-old
memory. -/
theorem health_score_blend_and_range_witness :
    (createdOf (730 * 86400) twoYearMem ≤ 730 * 86400 ∧
      lastAccessedOf (730 * 86400) twoYearMem ≤ 730 * 86400) ∧
    (healthScore (730 * 86400) twoYearMem =
      ageScore (730 * 86400) twoYearMem * 0.3 +
        recencyScore (730 * 86400) twoYearMem * 0.4 +
        usageScore twoYearMem * 0.3 ∧
    0 ≤ healthScore (730 * 86400) twoYearMem ∧
    healthScore (730 * 86400) twoYearMem ≤ 100 ∧
    (createdOf (730 * 86400) twoYearMem = 730 * 86400 - 365 * 86400 →
      ageScore (730 * 86400) twoYearMem = 50) ∧
    (730 * 86400 - createdOf (730 * 86400) twoYearMem ≥ 730 * 86400 →
      ageScore (730 * 86400) twoYearMem = 0)) :=
  ⟨⟨by norm_num [createdOf, twoYearMem],
      by norm_num [lastAccessedOf, createdOf, twoYearMem]⟩,
    health_score_blend_and_range (730 * 86400) twoYearMem
      (by norm_num [createdOf, twoYearMem])
      (by norm_num [lastAccessedOf, createdOf, twoYearMem])⟩

/-! ## Theorems: conflict resolution (claim C2) -/

set_option maxHeartbeats 1600000 in
/-- C2: three memories sharing a topic key, pairwise similar at ≥ 0.75
with timestamps pairwise more than one day apart — after the
conflict-resolution phase only the newest remains in the store, and each
of the others is deleted with reason `"superseded_by_newer"`. -/
theorem conflict_resolution_newest_survives (a b c : Mem)
    (hab : a.id ≠ b.id) (hac : a.id ≠ c.id) (hbc : b.id ≠ c.id)
    (hkab : topicKey a = topicKey b) (hkac : topicKey a = topicKey c)
    (hsab : calcSimGE 0.75 a b = true) (hsac : calcSimGE 0.75 a c = true)
    (hsbc : calcSimGE 0.75 b c = true)
    (htab : |tsOf a - tsOf b| > 86400) (htac : |tsOf a - tsOf c| > 86400)
    (htbc : |tsOf b - tsOf c| > 86400) :
    ∃ w, w ∈ [a, b, c] ∧ (∀ m ∈ [a, b, c], m = w ∨ tsOf m < tsOf w) ∧
      (conflictPhase [a, b, c]).1 = [w] ∧
      ∀ m ∈ [a, b, c], m.id ≠ w.id →
        (m.id, "superseded_by_newer") ∈ (conflictPhase [a, b, c]).2 := by
  have hne_ab : tsOf a ≠ tsOf b := by
    intro h; rw [h, sub_self, abs_zero] at htab; linarith
  have hne_ac : tsOf a ≠ tsOf c := by
    intro h; rw [h, sub_self, abs_zero] at htac; linarith
  have hne_bc : tsOf b ≠ tsOf c := by
    intro h; rw [h, sub_self, abs_zero] at htbc; linarith
  have dab : decide (|tsOf a - tsOf b| > 86400) = true := decide_eq_true htab
  have dac : decide (|tsOf a - tsOf c| > 86400) = true := decide_eq_true htac
  have dbc : decide (|tsOf b - tsOf c| > 86400) = true := decide_eq_true htbc
  have hphase : conflictPhase [a, b, c] =
      archiveConflictGroup [b, c] (archiveConflictGroup [a, b, c] ([a, b, c], [])) := by
    simp only [conflictPhase, groupByKey, groupInsert, ← hkab, ← hkac,
      List.foldl_cons, List.foldl_nil, if_pos rfl]
    simp [detectConflicts, detectConflictRows, conflictRow, hsab, hsac, hsbc,
      dab, dac, dbc]
  rcases hne_ab.lt_or_lt with h1 | h1
  · rcases hne_bc.lt_or_lt with h2 | h2
    · -- tsOf a < tsOf b < tsOf c: c survives
      have e1 : ¬ (tsOf b ≥ tsOf c) := not_le.mpr h2
      have e2 : ¬ (tsOf a ≥ tsOf c) := not_le.mpr (h1.trans h2)
      have e3 : ¬ (tsOf a ≥ tsOf b) := not_le.mpr h1
      have hres : archiveConflictGroup [b, c]
          (archiveConflictGroup [a, b, c] ([a, b, c], [])) =
          ([c], [(b.id, "superseded_by_newer"), (a.id, "superseded_by_newer"),
            (b.id, "superseded_by_newer")]) := by
        simp [archiveConflictGroup, sortDescBy, insertDescBy, e1, e2, e3,
          deleteId, hab, hbc, hac, Ne.symm hab, Ne.symm hbc, Ne.symm hac]
      refine ⟨c, by simp, ?_, by rw [hphase, hres], ?_⟩
      · intro m hm; simp at hm
        rcases hm with rfl | rfl | rfl
        · exact Or.inr (h1.trans h2)
        · exact Or.inr h2
        · exact Or.inl rfl
      · intro m hm hnw; rw [hphase, hres]; simp at hm ⊢
        rcases hm with rfl | rfl | rfl
        · tauto
        · tauto
        · exact absurd rfl hnw
    · rcases hne_ac.lt_or_lt with h3 | h3
      · -- tsOf a < tsOf c < tsOf b: b survives
        have e1 : tsOf b ≥ tsOf c := le_of_lt h2
        have e2 : ¬ (tsOf a ≥ tsOf b) := not_le.mpr h1
        have e3 : ¬ (tsOf a ≥ tsOf c) := not_le.mpr h3
        have hres : archiveConflictGroup [b, c]
            (archiveConflictGroup [a, b, c] ([a, b, c], [])) =
            ([b], [(c.id, "superseded_by_newer"), (a.id, "superseded_by_newer"),
              (c.id, "superseded_by_newer")]) := by
          simp [archiveConflictGroup, sortDescBy, insertDescBy, e1, e2, e3,
            deleteId, hab, hbc, hac, Ne.symm hab, Ne.symm hbc, Ne.symm hac]
        refine ⟨b, by simp, ?_, by rw [hphase, hres], ?_⟩
        · intro m hm; simp at hm
          rcases hm with rfl | rfl | rfl
          · exact Or.inr h1
          · exact Or.inl rfl
          · exact Or.inr h2
        · intro m hm hnw; rw [hphase, hres]; simp at hm ⊢
          rcases hm with rfl | rfl | rfl
          · tauto
          · exact absurd rfl hnw
          · tauto
      · -- tsOf c < tsOf a < tsOf b: b survives
        have e1 : tsOf b ≥ tsOf c := le_of_lt h2
        have e2 : ¬ (tsOf a ≥ tsOf b) := not_le.mpr h1
        have e3 : tsOf a ≥ tsOf c := le_of_lt h3
        have hres : archiveConflictGroup [b, c]
            (archiveConflictGroup [a, b, c] ([a, b, c], [])) =
            ([b], [(a.id, "superseded_by_newer"), (c.id, "superseded_by_newer"),
              (c.id, "superseded_by_newer")]) := by
          simp [archiveConflictGroup, sortDescBy, insertDescBy, e1, e2, e3,
            deleteId, hab, hbc, hac, Ne.symm hab, Ne.symm hbc, Ne.symm hac]
        refine ⟨b, by simp, ?_, by rw [hphase, hres], ?_⟩
        · intro m hm; simp at hm
          rcases hm with rfl | rfl | rfl
          · exact Or.inr h1
          · exact Or.inl rfl
          · exact Or.inr h2
        · intro m hm hnw; rw [hphase, hres]; simp at hm ⊢
          rcases hm with rfl | rfl | rfl
          · tauto
          · exact absurd rfl hnw
          · tauto
  · rcases hne_ac.lt_or_lt with h2 | h2
    · -- tsOf b < tsOf a < tsOf c: c survives
      have e1 : ¬ (tsOf b ≥ tsOf c) := not_le.mpr (h1.trans h2)
      have e2 : ¬ (tsOf a ≥ tsOf c) := not_le.mpr h2
      have e3 : tsOf a ≥ tsOf b := le_of_lt h1
      have hres : archiveConflictGroup [b, c]
          (archiveConflictGroup [a, b, c] ([a, b, c], [])) =
          ([c], [(a.id, "superseded_by_newer"), (b.id, "superseded_by_newer"),
            (b.id, "superseded_by_newer")]) := by
        simp [archiveConflictGroup, sortDescBy, insertDescBy, e1, e2, e3,
          deleteId, hab, hbc, hac, Ne.symm hab, Ne.symm hbc, Ne.symm hac]
      refine ⟨c, by simp, ?_, by rw [hphase, hres], ?_⟩
      · intro m hm; simp at hm
        rcases hm with rfl | rfl | rfl
        · exact Or.inr h2
        · exact Or.inr (h1.trans h2)
        · exact Or.inl rfl
      · intro m hm hnw; rw [hphase, hres]; simp at hm ⊢
        rcases hm with rfl | rfl | rfl
        · tauto
        · tauto
        · exact absurd rfl hnw
    · rcases hne_bc.lt_or_lt with h3 | h3
      · -- tsOf b < tsOf c < tsOf a: a survives
        have e1 : ¬ (tsOf b ≥ tsOf c) := not_le.mpr h3
        have e2 : tsOf a ≥ tsOf c := le_of_lt h2
        have hres : archiveConflictGroup [b, c]
            (archiveConflictGroup [a, b, c] ([a, b, c], [])) =
            ([a], [(c.id, "superseded_by_newer"), (b.id, "superseded_by_newer"),
              (b.id, "superseded_by_newer")]) := by
          simp [archiveConflictGroup, sortDescBy, insertDescBy, e1, e2,
            deleteId, hab, hbc, hac, Ne.symm hab, Ne.symm hbc, Ne.symm hac]
        refine ⟨a, by simp, ?_, by rw [hphase, hres], ?_⟩
        · intro m hm; simp at hm
          rcases hm with rfl | rfl | rfl
          · exact Or.inl rfl
          · exact Or.inr h1
          · exact Or.inr h2
        · intro m hm hnw; rw [hphase, hres]; simp at hm ⊢
          rcases hm with rfl | rfl | rfl
          · exact absurd rfl hnw
          · tauto
          · tauto
      · -- tsOf c < tsOf b < tsOf a: a survives
        have e1 : tsOf b ≥ tsOf c := le_of_lt h3
        have e2 : tsOf a ≥ tsOf b := le_of_lt h1
        have hres : archiveConflictGroup [b, c]
            (archiveConflictGroup [a, b, c] ([a, b, c], [])) =
            ([a], [(b.id, "superseded_by_newer"), (c.id, "superseded_by_newer"),
              (c.id, "superseded_by_newer")]) := by
          simp [archiveConflictGroup, sortDescBy, insertDescBy, e1, e2,
            deleteId, hab, hbc, hac, Ne.symm hab, Ne.symm hbc, Ne.symm hac]
        refine ⟨a, by simp, ?_, by rw [hphase, hres], ?_⟩
        · intro m hm; simp at hm
          rcases hm with rfl | rfl | rfl
          · exact Or.inl rfl
          · exact Or.inr h1
          · exact Or.inr (h3.trans h1)
        · intro m hm hnw; rw [hphase, hres]; simp at hm ⊢
          rcases hm with rfl | rfl | rfl
          · exact absurd rfl hnw
          · tauto
          · tauto

/-- Concrete conflict scenario, oldest memory. -/
def conflictMemA : Mem :=
  { id := 11, content := "topic memory first version",
    metadata :=
      { workspace_name := some "w", category := some "memory", timestamp := some 0 },
    vector := some [1, 0] }

/-- Concrete conflict scenario, middle memory (2.3 days later). -/
def conflictMemB : Mem :=
  { id := 12, content := "topic memory second version",
    metadata :=
      { workspace_name := some "w", category := some "memory",
        timestamp := some 200000 },
    vector := some [1, 0] }

/-- Concrete conflict scenario, newest memory (4.6 days later). -/
def conflictMemC : Mem :=
  { id := 13, content := "topic memory third version",
    metadata :=
      { workspace_name := some "w", category := some "memory",
        timestamp := some 400000 },
    vector := some [1, 0] }

/-- Witness for `conflict_resolution_newest_survives` at the concrete
three-memory scenario. -/
theorem conflict_resolution_newest_survives_witness :
    (conflictMemA.id ≠ conflictMemB.id ∧
      calcSimGE 0.75 conflictMemA conflictMemB = true ∧
      |tsOf conflictMemA - tsOf conflictMemB| > 86400) ∧
    ∃ w, w ∈ [conflictMemA, conflictMemB, conflictMemC] ∧
      (∀ m ∈ [conflictMemA, conflictMemB, conflictMemC], m = w ∨ tsOf m < tsOf w) ∧
      (conflictPhase [conflictMemA, conflictMemB, conflictMemC]).1 = [w] ∧
      ∀ m ∈ [conflictMemA, conflictMemB, conflictMemC], m.id ≠ w.id →
        (m.id, "superseded_by_newer") ∈
          (conflictPhase [conflictMemA, conflictMemB, conflictMemC]).2 :=
  ⟨⟨by decide, by norm_num [calcSimGE, simGE, dotQ, conflictMemA, conflictMemB],
      by norm_num [tsOf, conflictMemA, conflictMemB]⟩,
    conflict_resolution_newest_survives conflictMemA conflictMemB conflictMemC
      (by decide) (by decide) (by decide) rfl rfl
      (by norm_num [calcSimGE, simGE, dotQ, conflictMemA, conflictMemB])
      (by norm_num [calcSimGE, simGE, dotQ, conflictMemA, conflictMemC])
      (by norm_num [calcSimGE, simGE, dotQ, conflictMemB, conflictMemC])
      (by norm_num [tsOf, conflictMemA, conflictMemB])
      (by norm_num [tsOf, conflictMemA, conflictMemC])
      (by norm_num [tsOf, conflictMemB, conflictMemC])⟩

/-! ## Theorems: deduplication (claim C1) -/

/-- Phase 4 never changes a point id. -/
theorem healthMem_id (now : ℚ) (m : Mem) : (healthMem now m).id = m.id := by
  by_cases h : m.metadata.isEmpty <;> simp [healthMem, h]

/-- Phase 4 never touches `merged_count`. -/
theorem healthMem_merged_count (now : ℚ) (m : Mem) :
    (healthMem now m).metadata.merged_count = m.metadata.merged_count := by
  by_cases h : m.metadata.isEmpty <;> simp [healthMem, h]

/-- Phase 4 never touches `last_merge`. -/
theorem healthMem_last_merge (now : ℚ) (m : Mem) :
    (healthMem now m).metadata.last_merge = m.metadata.last_merge := by
  by_cases h : m.metadata.isEmpty <;> simp [healthMem, h]

/-- Older near-duplicate used in the concrete C1 scenario. -/
def dedupMemOld : Mem :=
  { id := 1, content := "memory number one text",
    metadata :=
      { workspace_name := some "w", category := some "memory",
        timestamp := some 100, access_count := some 1 },
    vector := some [1] }

/-- Newer near-duplicate used in the concrete C1 scenario. -/
def dedupMemNew : Mem :=
  { id := 2, content := "memory number two text",
    metadata :=
      { workspace_name := some "w", category := some "memory",
        timestamp := some 200, access_count := some 1 },
    vector := some [1] }

/-- C1 counterexample: two stored memories in the same
(category, workspace) group with cosine similarity 1 ≥ 0.90 and distinct
timestamps.  After one full maintenance cycle exactly the newer one
survives, but its stored metadata carries no `merged_count` and no
`last_merge`: `_merge_memories` annotates only the in-memory keeper
object and never upserts it, so the claimed merge annotation is absent
from the store. -/
theorem dedup_merge_count_not_persisted :
    (runMaintenance {} 1000 [dedupMemOld, dedupMemNew]).1.map
        (fun m => (m.id, m.metadata.merged_count, m.metadata.last_merge)) =
      [(2, none, none)] ∧
    (runMaintenance {} 1000 [dedupMemOld, dedupMemNew]).2 = [(1, "duplicate")] := by
  have hws1 : workspaceUpdate dedupMemOld = none := by decide
  have hws2 : workspaceUpdate dedupMemNew = none := by decide
  have hb1 : isBlankContent dedupMemOld.content = false := by decide
  have hb2 : isBlankContent dedupMemNew.content = false := by decide
  have hshort1 : ¬ (pyStrip dedupMemOld.content).length < 10 := by decide
  have hshort2 : ¬ (pyStrip dedupMemNew.content).length < 10 := by decide
  have hcat1 : dedupMemOld.metadata.category.getD "memory" ∈ validCategories := by
    decide
  have hcat2 : dedupMemNew.metadata.category.getD "memory" ∈ validCategories := by
    decide
  have hkey : dedupKey dedupMemOld = dedupKey dedupMemNew := by decide
  have hsim : calcSimGE 0.90 dedupMemOld dedupMemNew = true := by
    norm_num [calcSimGE, simGE, dotQ, dedupMemOld, dedupMemNew]
  have hnge : ¬ (tsOf dedupMemOld ≥ tsOf dedupMemNew) := by
    norm_num [tsOf, dedupMemOld, dedupMemNew]
  have hth : ({} : Janitor).similarity_threshold = 0.90 := rfl
  have e0 : fixWorkspacePhase [dedupMemOld, dedupMemNew] =
      [dedupMemOld, dedupMemNew] := by
    simp [fixWorkspacePhase, hws1, hws2]
  have e05 : fixCategoryPhase [dedupMemOld, dedupMemNew] =
      ([dedupMemOld, dedupMemNew], []) := by
    simp [fixCategoryPhase, hb1, hb2, hshort1, hshort2, hcat1, hcat2]
  have hv : mergeVictim dedupMemOld dedupMemNew = dedupMemOld := by
    rw [mergeVictim, if_neg hnge]
  have hsim9 : calcSimGE (9 / 10) dedupMemOld dedupMemNew = true := by
    have h910 : (9 / 10 : ℚ) = 0.90 := by norm_num
    rw [h910]; exact hsim
  have e1 : dedupPhase (0.90 : ℚ) [dedupMemOld, dedupMemNew] =
      ([dedupMemNew], [(1, "duplicate")]) := by
    simp only [dedupPhase, groupByKey, groupInsert, ← hkey, List.foldl_cons,
      List.foldl_nil, if_pos rfl]
    norm_num [dedupPairs, hsim, hsim9, hv, deleteId]
    simp [dedupMemOld, dedupMemNew]
  have e2 : conflictPhase [dedupMemNew] = ([dedupMemNew], []) := by
    simp [conflictPhase, groupByKey, groupInsert]
  have e3 : stalePhase {} 1000 [dedupMemNew] = ([dedupMemNew], []) := by
    have hst : isStale {} 1000 dedupMemNew = false := by
      norm_num [isStale, lastAccessedRaw, accessCountOf, dedupMemNew]
    simp [stalePhase, hst]
  have e4 : healthPhase 1000 [dedupMemNew] = [healthMem 1000 dedupMemNew] := by
    simp [healthPhase]
  constructor
  · simp only [runMaintenance, hth, e0, e05, e1, e2, e3, e4, List.map_cons,
      List.map_nil, healthMem_id, healthMem_merged_count, healthMem_last_merge]
    decide
  · simp [runMaintenance, hth, e0, e05, e1, e2, e3, e4]

/-- C1 (amended): in a store holding exactly two memories of the same
(category, workspace) group whose stored vectors have cosine similarity
at or above the janitor's 0.90 threshold and whose timestamps differ —
provided both pass the workspace/category hygiene phases untouched and
neither is stale — one maintenance cycle keeps exactly the memory with
the larger timestamp (rewritten only by the health phase) and deletes
the older one with reason `"duplicate"`; the merge counter and merge
timestamp are applied only to the in-memory keeper and are not
persisted, so the survivor's stored `merged_count` and `last_merge` are
unchanged. -/
theorem dedup_cycle_keeps_newer_without_merge_annotation
    (J : Janitor) (now : ℚ) (m1 m2 : Mem)
    (hJ : J.similarity_threshold = 0.90)
    (hid : m1.id ≠ m2.id)
    (hws1 : workspaceUpdate m1 = none) (hws2 : workspaceUpdate m2 = none)
    (hb1 : isBlankContent m1.content = false)
    (hb2 : isBlankContent m2.content = false)
    (hshort1 : ¬ (pyStrip m1.content).length < 10)
    (hshort2 : ¬ (pyStrip m2.content).length < 10)
    (hcat1 : m1.metadata.category.getD "memory" ∈ validCategories)
    (hcat2 : m2.metadata.category.getD "memory" ∈ validCategories)
    (hkey : dedupKey m1 = dedupKey m2)
    (hsim : calcSimGE 0.90 m1 m2 = true)
    (hts : tsOf m1 ≠ tsOf m2)
    (hstale1 : isStale J now m1 = false) (hstale2 : isStale J now m2 = false) :
    (runMaintenance J now [m1, m2]).1 = [healthMem now (mergeKeeper m1 m2)] ∧
    (runMaintenance J now [m1, m2]).2 = [((mergeVictim m1 m2).id, "duplicate")] ∧
    (healthMem now (mergeKeeper m1 m2)).metadata.merged_count =
      (mergeKeeper m1 m2).metadata.merged_count ∧
    (healthMem now (mergeKeeper m1 m2)).metadata.last_merge =
      (mergeKeeper m1 m2).metadata.last_merge ∧
    tsOf (mergeVictim m1 m2) < tsOf (mergeKeeper m1 m2) := by
  have e0 : fixWorkspacePhase [m1, m2] = [m1, m2] := by
    simp [fixWorkspacePhase, hws1, hws2]
  have e05 : fixCategoryPhase [m1, m2] = ([m1, m2], []) := by
    simp [fixCategoryPhase, hb1, hb2, hshort1, hshort2, hcat1, hcat2]
  rcases le_or_lt (tsOf m2) (tsOf m1) with hge | hlt
  · have ekk : mergeKeeper m1 m2 = m1 := by rw [mergeKeeper, if_pos hge]
    have ekv : mergeVictim m1 m2 = m2 := by rw [mergeVictim, if_pos hge]
    have e1 : dedupPhase J.similarity_threshold [m1, m2] =
        ([m1], [(m2.id, "duplicate")]) := by
      rw [hJ]
      simp [dedupPhase, groupByKey, groupInsert, ← hkey, dedupPairs, hsim,
        mergeVictim, if_pos hge, deleteId, hid, Ne.symm hid]
    have e2 : conflictPhase [m1] = ([m1], []) := by
      simp [conflictPhase, groupByKey, groupInsert]
    have e3 : stalePhase J now [m1] = ([m1], []) := by
      simp [stalePhase, hstale1]
    have e4 : healthPhase now [m1] = [healthMem now m1] := by
      simp [healthPhase]
    rw [ekk, ekv]
    refine ⟨?_, ?_, healthMem_merged_count now m1, healthMem_last_merge now m1,
      hge.lt_of_ne (fun h => hts h.symm)⟩ <;>
      simp [runMaintenance, e0, e05, e1, e2, e3, e4]
  · have hnge : ¬ (tsOf m1 ≥ tsOf m2) := not_le.mpr hlt
    have ekk : mergeKeeper m1 m2 = m2 := by rw [mergeKeeper, if_neg hnge]
    have ekv : mergeVictim m1 m2 = m1 := by rw [mergeVictim, if_neg hnge]
    have e1 : dedupPhase J.similarity_threshold [m1, m2] =
        ([m2], [(m1.id, "duplicate")]) := by
      rw [hJ]
      simp [dedupPhase, groupByKey, groupInsert, ← hkey, dedupPairs, hsim,
        mergeVictim, if_neg hnge, deleteId, hid, Ne.symm hid]
    have e2 : conflictPhase [m2] = ([m2], []) := by
      simp [conflictPhase, groupByKey, groupInsert]
    have e3 : stalePhase J now [m2] = ([m2], []) := by
      simp [stalePhase, hstale2]
    have e4 : healthPhase now [m2] = [healthMem now m2] := by
      simp [healthPhase]
    rw [ekk, ekv]
    refine ⟨?_, ?_, healthMem_merged_count now m2, healthMem_last_merge now m2,
      hlt⟩ <;>
      simp [runMaintenance, e0, e05, e1, e2, e3, e4]

/-- Witness for `dedup_cycle_keeps_newer_without_merge_annotation` at the
concrete pair of near-duplicates. -/
theorem dedup_cycle_keeps_newer_witness :
    (({} : Janitor).similarity_threshold = 0.90 ∧
      calcSimGE 0.90 dedupMemOld dedupMemNew = true ∧
      tsOf dedupMemOld ≠ tsOf dedupMemNew) ∧
    ((runMaintenance {} 1000 [dedupMemOld, dedupMemNew]).1 =
      [healthMem 1000 (mergeKeeper dedupMemOld dedupMemNew)] ∧
    (runMaintenance {} 1000 [dedupMemOld, dedupMemNew]).2 =
      [((mergeVictim dedupMemOld dedupMemNew).id, "duplicate")] ∧
    (healthMem 1000 (mergeKeeper dedupMemOld dedupMemNew)).metadata.merged_count =
      (mergeKeeper dedupMemOld dedupMemNew).metadata.merged_count ∧
    (healthMem 1000 (mergeKeeper dedupMemOld dedupMemNew)).metadata.last_merge =
      (mergeKeeper dedupMemOld dedupMemNew).metadata.last_merge ∧
    tsOf (mergeVictim dedupMemOld dedupMemNew) <
      tsOf (mergeKeeper dedupMemOld dedupMemNew)) :=
  ⟨⟨by norm_num,
      by norm_num [calcSimGE, simGE, dotQ, dedupMemOld, dedupMemNew],
      by norm_num [tsOf, dedupMemOld, dedupMemNew]⟩,
    dedup_cycle_keeps_newer_without_merge_annotation {} 1000 dedupMemOld dedupMemNew
      (by norm_num) (by decide)
      (by decide) (by decide)
      (by decide) (by decide)
      (by decide) (by decide)
      (by decide) (by decide)
      (by decide)
      (by norm_num [calcSimGE, simGE, dotQ, dedupMemOld, dedupMemNew])
      (by norm_num [tsOf, dedupMemOld, dedupMemNew])
      (by norm_num [isStale, lastAccessedRaw, accessCountOf, dedupMemOld])
      (by norm_num [isStale, lastAccessedRaw, accessCountOf, dedupMemNew])⟩

/-! ## Filter builder (`common/filters.py`, `make_filter`)

`FilterableField` comes from `settings.py`: a `field_type` in
keyword/integer/float/boolean, an optional `condition` (the eight literal
strings or `None`) and a `required` flag.  Payload values are kept
polymorphic (`V`), as `make_filter` never inspects them. -/

/-- `field_type` literals of `FilterableField`. -/
inductive FieldType where
  | keyword
  | integer
  | float
  | boolean
  deriving DecidableEq, Repr

/-- `condition` literals of `FilterableField` (besides `None`). -/
inductive FCond where
  | eq
  | ne
  | gt
  | ge
  | lt
  | le
  | anyOf
  | exceptOf
  deriving DecidableEq, Repr

/-- The literal string of a condition, used in error messages. -/
def FCond.str : FCond → String
  | .eq => "=="
  | .ne => "!="
  | .gt => ">"
  | .ge => ">="
  | .lt => "<"
  | .le => "<="
  | .anyOf => "any"
  | .exceptOf => "except"

/-- A `FilterableField` schema entry (name is the dict key, held outside). -/
structure FilterableField where
  field_type : FieldType
  condition : Option FCond := none
  required : Bool := false
  deriving DecidableEq, Repr

/-- One Qdrant `FieldCondition` as built by `make_filter`. -/
inductive FieldCondition (V : Type) where
  | matchValue (key : String) (v : V)
  | matchAny (key : String) (v : V)
  | matchExcept (key : String) (v : V)
  | rangeGt (key : String) (v : V)
  | rangeGte (key : String) (v : V)
  | rangeLt (key : String) (v : V)
  | rangeLte (key : String) (v : V)
  deriving DecidableEq, Repr

/-- The produced `models.Filter`: conjunctive `must` and `must_not` groups. -/
structure QFilter (V : Type) where
  must : List (FieldCondition V)
  must_not : List (FieldCondition V)
  deriving DecidableEq, Repr

/-- The dispatch of `make_filter` on one supplied, non-null value:
appends to the `(must, must_not)` accumulator or raises `ValueError`.
Mirrors the `(field_type, condition)` branch matrix; a `None` condition
falls through every branch without raising and without contributing. -/
def applyFieldCondition {V : Type} (fld : FilterableField) (fname : String)
    (v : V) (acc : List (FieldCondition V) × List (FieldCondition V)) :
    Except String (List (FieldCondition V) × List (FieldCondition V)) :=
  match fld.field_type with
  | .keyword =>
    match fld.condition with
    | some .eq => .ok (acc.1 ++ [.matchValue fname v], acc.2)
    | some .ne => .ok (acc.1, acc.2 ++ [.matchValue fname v])
    | some .anyOf => .ok (acc.1 ++ [.matchAny fname v], acc.2)
    | some .exceptOf => .ok (acc.1 ++ [.matchExcept fname v], acc.2)
    | some c =>
        .error ("Invalid condition " ++ c.str ++ " for keyword field " ++ fname)
    | none => .ok acc
  | .integer =>
    match fld.condition with
    | some .eq => .ok (acc.1 ++ [.matchValue fname v], acc.2)
    | some .ne => .ok (acc.1, acc.2 ++ [.matchValue fname v])
    | some .gt => .ok (acc.1 ++ [.rangeGt fname v], acc.2)
    | some .ge => .ok (acc.1 ++ [.rangeGte fname v], acc.2)
    | some .lt => .ok (acc.1 ++ [.rangeLt fname v], acc.2)
    | some .le => .ok (acc.1 ++ [.rangeLte fname v], acc.2)
    | some .anyOf => .ok (acc.1 ++ [.matchAny fname v], acc.2)
    | some .exceptOf => .ok (acc.1 ++ [.matchExcept fname v], acc.2)
    | none => .ok acc
  | .float =>
    match fld.condition with
    | some .gt => .ok (acc.1 ++ [.rangeGt fname v], acc.2)
    | some .ge => .ok (acc.1 ++ [.rangeGte fname v], acc.2)
    | some .lt => .ok (acc.1 ++ [.rangeLt fname v], acc.2)
    | some .le => .ok (acc.1 ++ [.rangeLte fname v], acc.2)
    | some c =>
        .error ("Invalid condition " ++ c.str ++ " for float field " ++ fname ++
          ". Only range comparisons (>, >=, <, <=) are supported for float values.")
    | none => .ok acc
  | .boolean =>
    match fld.condition with
    | some .eq => .ok (acc.1 ++ [.matchValue fname v], acc.2)
    | some .ne => .ok (acc.1, acc.2 ++ [.matchValue fname v])
    | some c =>
        .error ("Invalid condition " ++ c.str ++ " for boolean field " ++ fname)
    | none => .ok acc

/-- `filterable_fields[raw_field_name]` lookup. -/
def lookupField (fields : List (String × FilterableField)) (name : String) :
    Option FilterableField :=
  (fields.find? (fun kv => kv.1 = name)).map (fun kv => kv.2)

/-- The body of `make_filter`'s loop for one `(name, value)` item. -/
def makeFilterStep {V : Type} (fields : List (String × FilterableField))
    (acc : List (FieldCondition V) × List (FieldCondition V))
    (kv : String × Option V) :
    Except String (List (FieldCondition V) × List (FieldCondition V)) :=
  match lookupField fields kv.1 with
  | none => .error ("Field " ++ kv.1 ++ " is not a filterable field")
  | some fld =>
    match kv.2 with
    | none =>
        if fld.required then .error ("Field " ++ kv.1 ++ " is required")
        else .ok acc
    | some v => applyFieldCondition fld ("metadata." ++ kv.1) v acc

/-- `make_filter`: iterate the supplied values, dispatch each, and return
the conjunctive filter; any `ValueError` aborts the call. -/
def makeFilter {V : Type} (fields : List (String × FilterableField))
    (values : List (String × Option V)) : Except String (QFilter V) :=
  match values.foldlM (makeFilterStep fields) ([], []) with
  | .error e => .error e
  | .ok acc => .ok { must := acc.1, must_not := acc.2 }

/-! ## Theorems: filter-builder condition validity (claim C4) -/

/-- `Except.error` short-circuits a bind. -/
theorem except_error_bind {ε β γ : Type} (e : ε) (g : β → Except ε γ) :
    (Except.error e : Except ε β) >>= g = Except.error e := rfl

/-- `Except.ok` feeds a bind. -/
theorem except_ok_bind {ε β γ : Type} (b : β) (g : β → Except ε γ) :
    (Except.ok b : Except ε β) >>= g = g b := rfl

/-- If some list element makes the folded step fail for every accumulator,
the whole `foldlM` over `Except` fails. -/
theorem foldlM_error_of_mem {α β : Type} (f : β → α → Except String β)
    (l : List α) (a : α) (ha : a ∈ l)
    (herr : ∀ b, ∃ e, f b a = Except.error e) :
    ∀ init : β, ∃ e, l.foldlM f init = Except.error e := by
  induction l with
  | nil => cases ha
  | cons x xs ih =>
    intro init
    rcases List.mem_cons.mp ha with rfl | hmem
    · obtain ⟨e, he⟩ := herr init
      exact ⟨e, by simp [List.foldlM_cons, he, except_error_bind]⟩
    · cases hfx : f init x with
      | error e => exact ⟨e, by simp [List.foldlM_cons, hfx, except_error_bind]⟩
      | ok b =>
        obtain ⟨e, he⟩ := ih hmem b
        exact ⟨e, by simp [List.foldlM_cons, hfx, except_ok_bind, he]⟩

/-- Claim C4 as stated: with a non-null supplied value, a float field
fails for *any* condition outside the four range operators, and a boolean
field for any condition outside equality (values fixed to `String`, which
`make_filter` never inspects). -/
def makeFilterClaimC4 : Prop :=
  (∀ (fields : List (String × FilterableField))
      (values : List (String × Option String)) (name : String)
      (fld : FilterableField) (v : String),
    lookupField fields name = some fld → (name, some v) ∈ values →
    fld.field_type = .float →
    fld.condition ∉ [some FCond.gt, some FCond.ge, some FCond.lt, some FCond.le] →
    ∃ e, makeFilter fields values = Except.error e) ∧
  (∀ (fields : List (String × FilterableField))
      (values : List (String × Option String)) (name : String)
      (fld : FilterableField) (v : String),
    lookupField fields name = some fld → (name, some v) ∈ values →
    fld.field_type = .boolean →
    fld.condition ∉ [some FCond.eq, some FCond.ne] →
    ∃ e, makeFilter fields values = Except.error e)

/-- A float field whose configured condition is `None` (legal per
`settings.py`, the default). -/
def floatNullField : FilterableField := { field_type := .float, condition := none }

/-- A float field configured with condition `==`. -/
def floatEqField : FilterableField :=
  { field_type := .float, condition := some FCond.eq }

/-- C4 counterexample: a float field whose configured condition is `None`
(a legal `FilterableField` value) with a supplied value is silently
skipped — `make_filter` returns an empty filter instead of raising — so
"any condition outside `{>, >=, <, <=}` fails" is false as stated. -/
theorem makeFilterClaimC4_false : ¬ makeFilterClaimC4 := by
  intro h
  obtain ⟨e, he⟩ := h.1 [("score", floatNullField)]
    [("score", some "x")] "score" floatNullField "x"
    rfl (by simp) rfl (by decide)
  have hval : makeFilter [("score", floatNullField)] [("score", some "x")] =
      Except.ok ⟨[], []⟩ := rfl
  rw [hval] at he
  cases he

/-- C4 (amended): with a non-null supplied value, a float field fails for
every *non-null* condition outside `{>, >=, <, <=}`, a boolean field for
every non-null condition outside `{==, !=}` — in particular `any` and
`except` fail for both — while a null condition (and the supported
conditions, alone in the call) succeeds without contributing an error. -/
theorem make_filter_condition_matrix {V : Type}
    (fields : List (String × FilterableField))
    (values : List (String × Option V))
    (name : String) (fld : FilterableField) (v : V)
    (hf : lookupField fields name = some fld)
    (hv : (name, some v) ∈ values) :
    (fld.field_type = .float → ∀ c, fld.condition = some c →
      c ∉ [FCond.gt, FCond.ge, FCond.lt, FCond.le] →
      ∃ e, makeFilter fields values = Except.error e) ∧
    (fld.field_type = .boolean → ∀ c, fld.condition = some c →
      c ∉ [FCond.eq, FCond.ne] →
      ∃ e, makeFilter fields values = Except.error e) ∧
    ((fld.condition = some FCond.anyOf ∨ fld.condition = some FCond.exceptOf) →
      (fld.field_type = .float ∨ fld.field_type = .boolean) →
      ∃ e, makeFilter fields values = Except.error e) ∧
    (fld.field_type = .float →
      fld.condition = none ∨ fld.condition = some FCond.gt ∨
        fld.condition = some FCond.ge ∨ fld.condition = some FCond.lt ∨
        fld.condition = some FCond.le →
      (makeFilter fields [(name, some v)]).isOk = true) ∧
    (fld.field_type = .boolean →
      fld.condition = none ∨ fld.condition = some FCond.eq ∨
        fld.condition = some FCond.ne →
      (makeFilter fields [(name, some v)]).isOk = true) := by
  have errCase : ∀ (herr : ∀ b, ∃ e,
      makeFilterStep (V := V) fields b (name, some v) = Except.error e),
      ∃ e, makeFilter fields values = Except.error e := by
    intro herr
    obtain ⟨e, he⟩ :=
      foldlM_error_of_mem (makeFilterStep fields) values (name, some v) hv herr ([], [])
    exact ⟨e, by simp [makeFilter, he]⟩
  refine ⟨?_, ?_, ?_, ?_, ?_⟩
  · intro hft c hc hcnot
    refine errCase (fun b => ?_)
    simp only [makeFilterStep, hf, applyFieldCondition, hft, hc]
    cases c <;> simp_all
  · intro hft c hc hcnot
    refine errCase (fun b => ?_)
    simp only [makeFilterStep, hf, applyFieldCondition, hft, hc]
    cases c <;> simp_all
  · intro hcond hft
    refine errCase (fun b => ?_)
    rcases hcond with hc | hc <;> rcases hft with hft | hft <;>
      simp [makeFilterStep, hf, applyFieldCondition, hft, hc]
  · intro hft hcond
    rcases hcond with hc | hc | hc | hc | hc <;>
      simp [makeFilter, List.foldlM_cons, makeFilterStep, hf,
        applyFieldCondition, hft, hc, Except.isOk, Except.toBool]
  · intro hft hcond
    rcases hcond with hc | hc | hc <;>
      simp [makeFilter, List.foldlM_cons, makeFilterStep, hf,
        applyFieldCondition, hft, hc, Except.isOk, Except.toBool]

/-- Witness for `make_filter_condition_matrix`: one float field configured
with condition `==` and a supplied value — the call errors. -/
theorem make_filter_condition_matrix_witness :
    (lookupField [("score", floatEqField)] "score" = some floatEqField ∧
      ("score", some "7") ∈ [("score", some "7")]) ∧
    (floatEqField.field_type = .float → ∀ c,
      floatEqField.condition = some c →
      c ∉ [FCond.gt, FCond.ge, FCond.lt, FCond.le] →
      ∃ e, makeFilter [("score", floatEqField)] [("score", some "7")] =
        Except.error e) :=
  ⟨⟨rfl, by simp⟩,
    (make_filter_condition_matrix [("score", floatEqField)]
      [("score", some "7")] "score" floatEqField "7" rfl (by simp)).1⟩

/-! ## Local reranker (`reranker.py`) and search (`qdrant.py`) -/

/-- `LocalReranker` state after `__init__` (`model` stays `None` and is
never consulted). -/
structure LocalReranker where
  model_name : String
  enabled : Bool

/-- `LocalReranker.__init__`: takes the `enabled` argument, and inside the
`if enabled:` block unconditionally assigns `self.enabled = False`
("use fallback until FastEmbed has stable reranker API"); the `except`
arm would do the same. -/
def mkLocalReranker (model_name : String) (enabled : Bool) : LocalReranker :=
  { model_name, enabled := if enabled then false else enabled }

/-- `LocalReranker.is_available`. -/
def LocalReranker.is_available (r : LocalReranker) : Bool := r.enabled

/-- Python's `str.split()` with no separator: whitespace runs, empties
discarded. -/
def pySplitWhitespace (s : String) : List String :=
  (s.split Char.isWhitespace).filter (fun t => t ≠ "")

/-- Python's `set(...)` over tokens, as a duplicate-free list (iteration
order is irrelevant to the counts the reranker takes over it). -/
def uniqFirst : List String → List String
  | [] => []
  | t :: ts => t :: uniqFirst (ts.filter (fun u => u ≠ t))
  termination_by l => l.length
  decreasing_by
    simp only [List.length_cons]
    exact Nat.lt_succ_of_le (List.length_filter_le _ _)

/-- `LocalReranker._fallback_rerank`: boost each score by up to +10%
proportional to the fraction of query terms appearing in the document,
stable-sort descending by boosted score, truncate to `top_k`. -/
def LocalReranker.fallback_rerank (query : String) (documents : List String)
    (scores : List ℚ) (top_k : ℕ) : List (ℕ × ℚ) :=
  let query_terms := uniqFirst (pySplitWhitespace query.toLower)
  let reranked := (documents.zip scores).enum.map
    (fun p =>
      let term_matches :=
        (query_terms.filter (fun t => containsSub t p.2.1.toLower)).length
      let match_ratio : ℚ :=
        if query_terms.length ≠ 0 then (term_matches : ℚ) / query_terms.length
        else 0
      (p.1, p.2.2 * (1 + 0.1 * match_ratio)))
  (sortDescBy (fun p => p.2) reranked).take top_k

/-- `LocalReranker.rerank`: pass through the original `(index, score)`
pairs sorted descending by score when disabled or on empty input, else
run the fallback reranker (whose failure path is the same pass-through). -/
def LocalReranker.rerank (r : LocalReranker) (query : String)
    (documents : List String) (scores : List ℚ) (top_k : ℕ) : List (ℕ × ℚ) :=
  if !r.enabled || documents.isEmpty then
    (sortDescBy (fun p => p.2) scores.enum).take top_k
  else LocalReranker.fallback_rerank query documents scores top_k

/-- `self._reranker and self._reranker.is_available()`. -/
def rerankerAvailable : Option LocalReranker → Bool
  | none => false
  | some r => r.is_available

/-- One scored point as returned by `query_points`, with its
`{document, metadata}` payload. -/
structure ScoredPoint (μ : Type) where
  document : String
  metadata : Option μ
  score : ℚ

/-- `QdrantConnector.search`, with the black-box backend abstracted:
`collectionExists` is the `collection_exists` reply, `embedQuery` the
embedding provider, and `queryPoints` the ranked result of
`query_points` for a given query vector, filter and limit.  Returns the
entries' `(document, metadata)` payloads. -/
def connectorSearch {V μ : Type} (reranker : Option LocalReranker)
    (collectionExists : Bool) (embedQuery : String → List ℚ)
    (queryPoints : List ℚ → Option (QFilter V) → ℕ → List (ScoredPoint μ))
    (query : String) (limit : ℕ) (query_filter : Option (QFilter V)) :
    List (String × Option μ) :=
  if !collectionExists then []
  else
    let query_vector := embedQuery query
    let search_limit :=
      if rerankerAvailable reranker then min (limit * 5) 100 else limit
    let pts := queryPoints query_vector query_filter search_limit
    match reranker with
    | some r =>
        if r.is_available && decide (pts.length > limit) then
          (r.rerank query (pts.map (fun p => p.document))
              (pts.map (fun p => p.score)) limit).map
            (fun p => ((pts.getD p.1 ⟨"", none, 0⟩).document,
              (pts.getD p.1 ⟨"", none, 0⟩).metadata))
        else (pts.take limit).map (fun p => (p.document, p.metadata))
    | none => (pts.take limit).map (fun p => (p.document, p.metadata))

/-! ## Theorems: search on a missing collection (claim C5) -/

/-- C5: for every query, limit and filter (and any reranker state and
backend behaviour), `search` on a collection that does not exist returns
`[]`; in the embedding the function is total, mirroring that the early
return precedes every fallible backend call. -/
theorem search_missing_collection_returns_empty {V μ : Type}
    (reranker : Option LocalReranker) (collectionExists : Bool)
    (embedQuery : String → List ℚ)
    (queryPoints : List ℚ → Option (QFilter V) → ℕ → List (ScoredPoint μ))
    (query : String) (limit : ℕ) (query_filter : Option (QFilter V))
    (h : collectionExists = false) :
    connectorSearch reranker collectionExists embedQuery queryPoints
      query limit query_filter = [] := by
  subst h
  rfl

/-- Witness for `search_missing_collection_returns_empty` at a concrete
backend. -/
theorem search_missing_collection_returns_empty_witness :
    (false = false) ∧
    connectorSearch (V := String) (μ := String) none false (fun _ => [])
      (fun _ _ _ => []) "query" 10 none = [] :=
  ⟨rfl, search_missing_collection_returns_empty none false (fun _ => [])
    (fun _ _ _ => []) "query" 10 none rfl⟩

/-! ## Theorems: reranker invariant (claim C10) -/

/-- C10: `LocalReranker.__init__` always ends with `enabled = False`
(for either constructor argument), so `is_available()` is always
`False`, every `rerank` call takes the pass-through branch (original
`(index, score)` pairs sorted descending by score, truncated to
`top_k`), and `QdrantConnector.search` with such a reranker attached
never over-fetches: it queries exactly `limit` points and returns them
unreranked. -/
theorem local_reranker_always_disabled {V μ : Type} (model_name query : String)
    (enabled collectionExists : Bool) (documents : List String)
    (scores : List ℚ) (top_k limit : ℕ) (embedQuery : String → List ℚ)
    (queryPoints : List ℚ → Option (QFilter V) → ℕ → List (ScoredPoint μ))
    (query_filter : Option (QFilter V)) :
    (mkLocalReranker model_name enabled).enabled = false ∧
    (mkLocalReranker model_name enabled).is_available = false ∧
    (mkLocalReranker model_name enabled).rerank query documents scores top_k =
      (sortDescBy (fun p => p.2) scores.enum).take top_k ∧
    connectorSearch (some (mkLocalReranker model_name enabled))
        collectionExists embedQuery queryPoints query limit query_filter =
      if collectionExists then
        ((queryPoints (embedQuery query) query_filter limit).take limit).map
          (fun p => (p.document, p.metadata))
      else [] := by
  have hen : (mkLocalReranker model_name enabled).enabled = false := by
    cases enabled <;> rfl
  refine ⟨hen, hen, ?_, ?_⟩
  · rw [LocalReranker.rerank, hen]
    simp
  · cases collectionExists with
    | false => rfl
    | true =>
      simp [connectorSearch, rerankerAvailable, LocalReranker.is_available, hen]

/-! ## Change tracker (`incremental.py`, `FileHashTracker`)

`compute_hash` is an MD5 hex digest — a black-box deterministic function
of the content string — so the tracker operations are parametrized over
an arbitrary `hash : String → String`. -/

/-- Association-list lookup (`dict.get`). -/
def lookupKey {β : Type} (l : List (String × β)) (k : String) : Option β :=
  (l.find? (fun kv => kv.1 = k)).map (fun kv => kv.2)

/-- Association-list assignment (`d[k] = v`): overwrite in place or append. -/
def setKey {β : Type} : List (String × β) → String → β → List (String × β)
  | [], k, v => [(k, v)]
  | kv :: rest, k, v =>
      if kv.1 = k then (k, v) :: rest else kv :: setKey rest k v

/-- Tracker state: `file_hashes` and `last_check`. -/
structure FileHashTracker where
  file_hashes : List (String × String) := []
  last_check : List (String × ℚ) := []

/-- The fixed `indexable_extensions` allow-list. -/
def indexableExtensions : List String :=
  [".py", ".js", ".ts", ".jsx", ".tsx", ".go", ".rs", ".java", ".c", ".cpp",
   ".h", ".hpp", ".cs", ".rb", ".php", ".swift", ".kt", ".scala", ".clj",
   ".sh", ".bash", ".zsh", ".lua", ".r", ".m", ".mm", ".sql", ".yaml",
   ".yml", ".json", ".toml"]

/-- Index of the last occurrence of a character (`str.rfind`). -/
def rlastIdx (c : Char) (l : List Char) : Option ℕ :=
  (l.reverse.findIdx? (fun x => x = c)).map (fun i => l.length - 1 - i)

/-- The extension part of `os.path.splitext` (posix rules): the suffix
from the last dot, provided that dot follows the last separator and the
basename has a non-dot character before it (so dotfiles have no
extension). -/
def splitextExt (p : String) : String :=
  let l := p.toList
  match rlastIdx '.' l with
  | none => ""
  | some di =>
    let si : ℕ :=
      match rlastIdx '/' l with
      | none => 0
      | some s => s + 1
    if si ≤ di ∧ ((l.drop si).take (di - si)).any (fun c => c ≠ '.') then
      String.mk (l.drop di)
    else ""

/-- `FileHashTracker.is_indexable`: lowercased extension in the allow-list. -/
def FileHashTracker.is_indexable (file_path : String) : Bool :=
  decide (String.mk ((splitextExt file_path).toList.map Char.toLower) ∈
    indexableExtensions)

/-- `FileHashTracker.has_changed`: non-indexable paths report unchanged
with no state change; otherwise compare the content digest against the
recorded one (a missing record counts as changed), recording digest and
check time on change and only the check time otherwise. -/
def FileHashTracker.has_changed (hash : String → String) (now : ℚ)
    (tracker : FileHashTracker) (file_path content : String) :
    Bool × FileHashTracker :=
  if ¬ FileHashTracker.is_indexable file_path then (false, tracker)
  else
    let new_hash := hash content
    let old_hash := lookupKey tracker.file_hashes file_path
    if old_hash ≠ some new_hash then
      (true,
        { file_hashes := setKey tracker.file_hashes file_path new_hash,
          last_check := setKey tracker.last_check file_path now })
    else
      (false, { tracker with last_check := setKey tracker.last_check file_path now })

/-! ## Theorems: change detection (claim C9) -/

/-- Assigning a key makes it look up to the assigned value. -/
theorem lookupKey_setKey {β : Type} (l : List (String × β)) (k : String) (v : β) :
    lookupKey (setKey l k v) k = some v := by
  induction l with
  | nil => simp [setKey, lookupKey]
  | cons kv rest ih =>
    by_cases h : kv.1 = k
    · simp [setKey, h, lookupKey]
    · simp [setKey, h, lookupKey, List.find?]
      simpa [lookupKey] using ih

/-- C9: `has_changed` returns `True` the first time an indexable path is
queried (no recorded hash), `False` on an immediately repeated call with
identical content (from any starting state), and `False` on every call
for a non-indexable path. -/
theorem has_changed_contract (hash : String → String) (now now2 : ℚ)
    (tracker : FileHashTracker) (path content : String) :
    (FileHashTracker.is_indexable path = true →
      lookupKey tracker.file_hashes path = none →
      (FileHashTracker.has_changed hash now tracker path content).1 = true) ∧
    (FileHashTracker.has_changed hash now2
        (FileHashTracker.has_changed hash now tracker path content).2
        path content).1 = false ∧
    (FileHashTracker.is_indexable path = false →
      (FileHashTracker.has_changed hash now tracker path content).1 = false) := by
  refine ⟨?_, ?_, ?_⟩
  · intro hidx hnone
    simp [FileHashTracker.has_changed, hidx, hnone]
  · by_cases hidx : FileHashTracker.is_indexable path = true
    · by_cases hold : lookupKey tracker.file_hashes path = some (hash content)
      · simp [FileHashTracker.has_changed, hidx, hold]
      · simp [FileHashTracker.has_changed, hidx, hold, lookupKey_setKey]
    · simp at hidx
      simp [FileHashTracker.has_changed, hidx]
  · intro hidx
    simp [FileHashTracker.has_changed, hidx]

/-- Witness for `has_changed_contract` at a fresh tracker and `a.py`. -/
theorem has_changed_contract_witness :
    (FileHashTracker.is_indexable "a.py" = true ∧
      lookupKey ({} : FileHashTracker).file_hashes "a.py" = none) ∧
    ((FileHashTracker.is_indexable "a.py" = true →
      lookupKey ({} : FileHashTracker).file_hashes "a.py" = none →
      (FileHashTracker.has_changed id 5 {} "a.py" "print(1)").1 = true) ∧
    (FileHashTracker.has_changed id 6
        (FileHashTracker.has_changed id 5 {} "a.py" "print(1)").2
        "a.py" "print(1)").1 = false ∧
    (FileHashTracker.is_indexable "a.py" = false →
      (FileHashTracker.has_changed id 5 {} "a.py" "print(1)").1 = false)) :=
  ⟨⟨by decide, rfl⟩, has_changed_contract id 5 6 {} "a.py" "print(1)"⟩

/-! ## Code chunker (`analysis/code_chunker.py`)

The structural path of `chunk_python_file` walks the tree produced by
CPython's `ast.parse` (an external black box); it is abstracted as a
`parse` oracle returning the structural chunk list on success and `none`
when `ast.parse` raises `SyntaxError`.  The fallback construction and
the language dispatch are embedded from the source.  The dataclass's
derived `hash` field (an MD5 of path/line/content filled by
`__post_init__`) is omitted. -/

/-- A `CodeChunk` as produced by the chunker. -/
structure CodeChunk where
  content : String
  chunk_type : String
  name : Option String := none
  start_line : ℕ
  end_line : ℕ
  file_path : String
  language : String
  parent_class : Option String := none
  docstring : Option String := none
  deriving DecidableEq, Repr

/-- Python's `s.split("\\n")`: line pieces, keeping empty ones. -/
def splitLinesAux : List Char → List (List Char)
  | [] => [[]]
  | c :: rest =>
      if c = '\n' then [] :: splitLinesAux rest
      else
        match splitLinesAux rest with
        | [] => [[c]]
        | l :: ls => (c :: l) :: ls

/-- Python's `content.split("\\n")`. -/
def pySplitNewline (s : String) : List String :=
  (splitLinesAux s.toList).map String.mk

/-- Python's `"\\n".join(lines)`. -/
def joinNewline : List String → String
  | [] => ""
  | [s] => s
  | s :: rest => s ++ "\n" ++ joinNewline rest

/-- `CodeChunker._create_fallback_chunk`: one whole-file chunk, its
content truncated to the first `max_chunk_size` lines with a
`... (N more lines)` marker appended for larger files; `end_line` is the
original line count. -/
def createFallbackChunk (max_chunk_size : ℕ) (content file_path language : String) :
    CodeChunk :=
  let lines := pySplitNewline content
  let truncated :=
    if lines.length > max_chunk_size then
      joinNewline (lines.take max_chunk_size) ++
        "\n\n... (" ++ toString (lines.length - max_chunk_size) ++ " more lines)"
    else content
  { content := truncated, chunk_type := "file", name := none, start_line := 1,
    end_line := lines.length, file_path := file_path, language := language }

/-- `CodeChunker.chunk_python_file`: the `except SyntaxError` arm returns
the single fallback chunk; on success the structural walk's chunks. -/
def chunk_python_file (parse : String → Option (List CodeChunk))
    (max_chunk_size : ℕ) (content file_path : String) : List CodeChunk :=
  match parse content with
  | none => [createFallbackChunk max_chunk_size content file_path "python"]
  | some chunks => chunks

/-- `CodeChunker.chunk_file`: dispatch on the language, with the single
fallback chunk for every unsupported language. -/
def chunk_file (parse : String → Option (List CodeChunk)) (max_chunk_size : ℕ)
    (content file_path language : String) : List CodeChunk :=
  if language = "python" then
    chunk_python_file parse max_chunk_size content file_path
  else [createFallbackChunk max_chunk_size content file_path language]

/-! ## Theorems: chunker graceful degradation (claim C6) -/

/-- C6: `chunk_file` is total (the embedding of "never raises": the
`SyntaxError` of `ast.parse` is the `none` case of the oracle and is
caught); a Python source that fails to parse yields exactly one fallback
chunk, as does every non-Python language; the fallback chunk has
`chunk_type = "file"`, spans line 1 to the original line count, keeps
the content verbatim within the `max_chunk_size` line budget, and
otherwise truncates to that budget with a `... (N more lines)` marker
appended. -/
theorem chunk_file_graceful_fallback (parse : String → Option (List CodeChunk))
    (max_chunk_size : ℕ) (content path language : String) :
    (parse content = none →
      chunk_file parse max_chunk_size content path "python" =
        [createFallbackChunk max_chunk_size content path "python"]) ∧
    (language ≠ "python" →
      chunk_file parse max_chunk_size content path language =
        [createFallbackChunk max_chunk_size content path language]) ∧
    (createFallbackChunk max_chunk_size content path language).chunk_type =
      "file" ∧
    (createFallbackChunk max_chunk_size content path language).start_line = 1 ∧
    (createFallbackChunk max_chunk_size content path language).end_line =
      (pySplitNewline content).length ∧
    ((pySplitNewline content).length ≤ max_chunk_size →
      (createFallbackChunk max_chunk_size content path language).content =
        content) ∧
    ((pySplitNewline content).length > max_chunk_size →
      (createFallbackChunk max_chunk_size content path language).content =
        joinNewline ((pySplitNewline content).take max_chunk_size) ++
          "\n\n... (" ++
          toString ((pySplitNewline content).length - max_chunk_size) ++
          " more lines)") := by
  refine ⟨?_, ?_, rfl, rfl, rfl, ?_, ?_⟩
  · intro hp
    simp [chunk_file, chunk_python_file, hp]
  · intro hl
    simp [chunk_file, hl]
  · intro hle
    simp [createFallbackChunk, Nat.not_lt.mpr hle]
  · intro hgt
    simp [createFallbackChunk, hgt]

/-- Witness for `chunk_file_graceful_fallback`: an oracle that rejects
everything (a malformed source), a 2-line budget and a 3-line file. -/
theorem chunk_file_graceful_fallback_witness :
    ((fun _ => (none : Option (List CodeChunk))) "a\nb\nc" = none ∧
      "ruby" ≠ "python" ∧ (pySplitNewline "a\nb\nc").length > 2) ∧
    (((fun _ => (none : Option (List CodeChunk))) "a\nb\nc" = none →
      chunk_file (fun _ => none) 2 "a\nb\nc" "f.py" "python" =
        [createFallbackChunk 2 "a\nb\nc" "f.py" "python"]) ∧
    ("ruby" ≠ "python" →
      chunk_file (fun _ => none) 2 "a\nb\nc" "f.py" "ruby" =
        [createFallbackChunk 2 "a\nb\nc" "f.py" "ruby"]) ∧
    (createFallbackChunk 2 "a\nb\nc" "f.py" "ruby").chunk_type = "file" ∧
    (createFallbackChunk 2 "a\nb\nc" "f.py" "ruby").start_line = 1 ∧
    (createFallbackChunk 2 "a\nb\nc" "f.py" "ruby").end_line =
      (pySplitNewline "a\nb\nc").length ∧
    ((pySplitNewline "a\nb\nc").length ≤ 2 →
      (createFallbackChunk 2 "a\nb\nc" "f.py" "ruby").content = "a\nb\nc") ∧
    ((pySplitNewline "a\nb\nc").length > 2 →
      (createFallbackChunk 2 "a\nb\nc" "f.py" "ruby").content =
        joinNewline ((pySplitNewline "a\nb\nc").take 2) ++
          "\n\n... (" ++ toString ((pySplitNewline "a\nb\nc").length - 2) ++
          " more lines)")) :=
  ⟨⟨rfl, by decide, by decide⟩,
    chunk_file_graceful_fallback (fun _ => none) 2 "a\nb\nc" "f.py" "ruby"⟩

/-! ## BM25 sparse embedder (`sparse_embedder.py`)

The corpus-statistics state and its `embed_documents` update are
embedded exactly; the emitted sparse vectors (whose weights come from
`compute_bm25_score`) never feed back into the state and are treated
through `compute_bm25_score` directly (over `ℝ`, for `math.log`). -/

/-- The module-level `STOP_WORDS` set. -/
def STOP_WORDS : List String :=
  ["a", "an", "and", "are", "as", "at", "be", "by", "for", "from", "has",
   "he", "in", "is", "it", "its", "of", "on", "that", "the", "to", "was",
   "will", "with"]

/-- A character of the regex class `\w` (ASCII view). -/
def isWordChar (c : Char) : Bool := c.isAlphanum || c = '_'

/-- `re.findall(r"\w+", ...)`: maximal runs of word characters, paired
with whether the head run is still open. -/
def wordRunsAux : List Char → List (List Char) × Bool
  | [] => ([], false)
  | c :: rest =>
      let r := wordRunsAux rest
      if isWordChar c then
        match r.1, r.2 with
        | run :: runs, true => ((c :: run) :: runs, true)
        | runs, _ => ([c] :: runs, true)
      else (r.1, false)

/-- `BM25SparseEmbedder.tokenize`: word runs of the lowercased text,
dropping stop words unless shorter than 3 characters. -/
def tokenize (text : String) : List String :=
  let tokens := (wordRunsAux (text.toList.map Char.toLower)).1.map String.mk
  tokens.filter (fun t => t ∉ STOP_WORDS || t.length < 3)

/-- `BM25SparseEmbedder` state: parameters, vocabulary (a term's index is
its position), corpus statistics. -/
structure BM25SparseEmbedder where
  k1 : ℚ := 1.5
  b : ℚ := 0.75
  vocab : List String := []
  doc_count : ℕ := 0
  avg_doc_length : ℚ := 0
  df : List (String × ℕ) := []

/-- `get_term_index`'s vocabulary growth: new terms are appended (their
index is their position, never reused or reassigned). -/
def addTerm (vocab : List String) (t : String) : List String :=
  if t ∈ vocab then vocab else vocab ++ [t]

/-- `self.df[term] = self.df.get(term, 0) + 1`. -/
def bumpDF (df : List (String × ℕ)) (t : String) : List (String × ℕ) :=
  setKey df t ((lookupKey df t).getD 0 + 1)

/-- Python's `set(tokens)` as iterated by the `df` update: one entry per
distinct term (the set's iteration order is arbitrary and the bump
aggregate is order-independent; this keeps each term's last occurrence,
structurally). -/
def pySet : List String → List String
  | [] => []
  | t :: ts => if t ∈ ts then pySet ts else t :: pySet ts

/-- The state update of `embed_documents` on a batch: `doc_count` and
`avg_doc_length` are overwritten from this batch alone, `df` is bumped
once per document containing each term (Python iterates `set(tokens)`;
the aggregate effect is order-independent) and the vocabulary grows by
the batch's new terms in first-appearance order (`Counter` preserves
it). -/
def embedDocumentsState (st : BM25SparseEmbedder) (texts : List String) :
    BM25SparseEmbedder :=
  let all_tokens := texts.map tokenize
  let total_length := (all_tokens.map List.length).sum
  { st with
    doc_count := texts.length
    avg_doc_length := (total_length : ℚ) / ((max texts.length 1 : ℕ) : ℚ)
    df := all_tokens.foldl (fun d toks => (pySet toks).foldl bumpDF d) st.df
    vocab := all_tokens.foldl (fun v toks => (uniqFirst toks).foldl addTerm v) st.vocab }

/-! ## Theorems: BM25 batch statistics (claim C7) -/

/-- Claim C7 as stated: the stored statistics after `embed_documents`
depend only on the current batch — an earlier `embed_documents` call
with any prior batch leaves them unaffected. -/
def bm25ClaimC7 : Prop :=
  ∀ (st : BM25SparseEmbedder) (prior texts : List String),
    (embedDocumentsState (embedDocumentsState st prior) texts).doc_count =
      (embedDocumentsState st texts).doc_count ∧
    (embedDocumentsState (embedDocumentsState st prior) texts).avg_doc_length =
      (embedDocumentsState st texts).avg_doc_length ∧
    (embedDocumentsState (embedDocumentsState st prior) texts).df =
      (embedDocumentsState st texts).df

/-- C7 counterexample: embedding the batch `["apple pie"]` twice leaves
`df["apple"] = 2`, while a single call gives 1 — the document
frequencies are cumulative across calls, not recomputed from the batch
alone. -/
theorem bm25ClaimC7_false : ¬ bm25ClaimC7 := by
  intro h
  have hdf := (h {} ["apple pie"] ["apple pie"]).2.2
  have h2 : (embedDocumentsState (embedDocumentsState {} ["apple pie"])
      ["apple pie"]).df = [("apple", 2), ("pie", 2)] := by decide
  have h1 : (embedDocumentsState {} ["apple pie"]).df =
      [("apple", 1), ("pie", 1)] := by decide
  rw [h1, h2] at hdf
  cases hdf

/-- Assigning one key leaves other keys' lookups unchanged. -/
theorem lookupKey_setKey_ne {β : Type} {l : List (String × β)} {k k' : String}
    (h : k' ≠ k) {v : β} : lookupKey (setKey l k v) k' = lookupKey l k' := by
  induction l with
  | nil => simp [setKey, lookupKey, List.find?, Ne.symm h]
  | cons kv rest ih =>
    by_cases hk : kv.1 = k
    · simp only [setKey, hk, if_pos]
      simp [lookupKey, List.find?, Ne.symm h, hk]
    · simp only [setKey, hk, if_neg, not_false_iff]
      by_cases hk' : kv.1 = k'
      · simp [lookupKey, List.find?, hk']
      · simp only [lookupKey, List.find?, hk'] at ih ⊢
        simpa [lookupKey] using ih

/-- The df bump over a token list adds each term's occurrence count. -/
theorem df_fold_count (us : List String) (d : List (String × ℕ)) (t : String) :
    (lookupKey (us.foldl bumpDF d) t).getD 0 =
      (lookupKey d t).getD 0 + us.count t := by
  induction us generalizing d with
  | nil => simp
  | cons u us ih =>
    rw [List.foldl_cons, ih]
    by_cases h : u = t
    · subst h
      rw [bumpDF, lookupKey_setKey]
      simp [List.count_cons]
      omega
    · rw [bumpDF, lookupKey_setKey_ne (fun he => h he.symm)]
      simp [List.count_cons, h]

/-- `pySet` keeps exactly one occurrence of each member. -/
theorem pySet_count (l : List String) (t : String) :
    (pySet l).count t = if t ∈ l then 1 else 0 := by
  induction l with
  | nil => simp [pySet]
  | cons u us ih =>
    by_cases hu : u ∈ us
    · rw [pySet, if_pos hu, ih]
      by_cases ht : t = u
      · subst ht; simp [hu]
      · simp [ht]
    · rw [pySet, if_neg hu]
      by_cases ht : t = u
      · subst ht
        simp [List.count_cons, ih, hu]
      · simp [List.count_cons, ih, ht]

/-- Folding the per-document df bumps over a batch adds, for each term,
the number of batch documents containing it. -/
theorem df_batch_count (tokss : List (List String)) (d : List (String × ℕ))
    (t : String) :
    (lookupKey (tokss.foldl (fun d' toks => (pySet toks).foldl bumpDF d') d) t).getD 0 =
      (lookupKey d t).getD 0 + tokss.countP (fun toks => t ∈ toks) := by
  induction tokss generalizing d with
  | nil => simp
  | cons toks rest ih =>
    rw [List.foldl_cons, ih, df_fold_count, pySet_count]
    by_cases h : t ∈ toks
    · simp [List.countP_cons, h]
      omega
    · simp [List.countP_cons, h]

/-- C7 (amended): after `embed_documents` on a batch, `doc_count` and
`avg_doc_length` are recomputed from that batch alone (their values are
closed formulas in the batch), while each term's document frequency is
cumulative: it grows by the number of batch documents containing the
term on top of its previous value, and is never reset. -/
theorem bm25_stats_update (st : BM25SparseEmbedder) (texts : List String) :
    (embedDocumentsState st texts).doc_count = texts.length ∧
    (embedDocumentsState st texts).avg_doc_length =
      ((((texts.map tokenize).map List.length).sum : ℚ)) /
        (((max texts.length 1 : ℕ) : ℚ)) ∧
    ∀ t : String,
      (lookupKey (embedDocumentsState st texts).df t).getD 0 =
        (lookupKey st.df t).getD 0 +
          (texts.map tokenize).countP (fun toks => t ∈ toks) := by
  refine ⟨rfl, rfl, fun t => ?_⟩
  simpa [embedDocumentsState] using df_batch_count (texts.map tokenize) st.df t

/-! ## Theorems: BM25 monotonicity (claim C8) -/

/-- `BM25SparseEmbedder.compute_bm25_score` over `ℝ`: the smoothed IDF
`log((doc_count - df + 0.5)/(df + 0.5) + 1)` times the saturated,
length-normalised TF component
`tf * (k1 + 1) / (tf + k1 * (1 - b + b * doclen/avgdoclen))`. -/
noncomputable def compute_bm25_score (st : BM25SparseEmbedder)
    (term_freq doc_length doc_freq : ℕ) : ℝ :=
  Real.log
      (((st.doc_count : ℝ) - (doc_freq : ℝ) + 0.5) / ((doc_freq : ℝ) + 0.5) + 1.0) *
    (((term_freq : ℝ) * ((st.k1 : ℝ) + 1)) /
      ((term_freq : ℝ) + (st.k1 : ℝ) *
        (1 - (st.b : ℝ) + (st.b : ℝ) *
          ((doc_length : ℝ) / (st.avg_doc_length : ℝ)))))

/-- Claim C8 as stated: with default `k1 = 1.5`, `b = 0.75`, positive
`doc_length`, `avg_doc_length` and `doc_count`, and arbitrary `doc_freq`,
the score is non-decreasing in `term_freq`. -/
def bm25ClaimC8 : Prop :=
  ∀ (st : BM25SparseEmbedder) (tf1 tf2 dl df : ℕ),
    st.k1 = 1.5 → st.b = 0.75 → 0 < dl → 0 < st.avg_doc_length →
    0 < st.doc_count → tf1 ≤ tf2 →
    compute_bm25_score st tf1 dl df ≤ compute_bm25_score st tf2 dl df

/-- State with one document but a term claimed to occur in two documents,
making the smoothed IDF negative (`log 0.8`). -/
def negIdfState : BM25SparseEmbedder := { doc_count := 1, avg_doc_length := 1 }

/-- C8 counterexample: when `doc_freq > doc_count` the smoothed IDF is
negative and the score strictly *decreases* as the term frequency grows
from 1 to 2 — the claim, which leaves `doc_freq` unconstrained, is
false. -/
theorem bm25ClaimC8_false : ¬ bm25ClaimC8 := by
  intro h
  have hmono := h negIdfState 1 2 1 2 rfl rfl (by norm_num)
    (by norm_num [negIdfState]) (by norm_num [negIdfState]) (by norm_num)
  have h1 : compute_bm25_score negIdfState 1 1 2 = Real.log 0.8 := by
    rw [compute_bm25_score]
    norm_num [negIdfState]
  have h2 : compute_bm25_score negIdfState 2 1 2 = Real.log 0.8 * (10 / 7) := by
    rw [compute_bm25_score]
    norm_num [negIdfState]
  have hlog : Real.log 0.8 < 0 := Real.log_neg (by norm_num) (by norm_num)
  rw [h1, h2] at hmono
  nlinarith

/-- C8 (amended): with default parameters, positive `doc_length`,
`avg_doc_length` and `doc_count`, and `doc_freq ≤ doc_count` (as always
holds for the statistics `embed_documents` maintains on a single batch),
`compute_bm25_score` is monotonically non-decreasing in the term
frequency. -/
theorem bm25_score_monotone_in_tf (st : BM25SparseEmbedder)
    (tf1 tf2 dl df : ℕ) (hk : st.k1 = 1.5) (hb : st.b = 0.75) (hdl : 0 < dl)
    (havg : 0 < st.avg_doc_length) (_hN : 0 < st.doc_count)
    (hdf : df ≤ st.doc_count) (htf : tf1 ≤ tf2) :
    compute_bm25_score st tf1 dl df ≤ compute_bm25_score st tf2 dl df := by
  rw [compute_bm25_score, compute_bm25_score, hk, hb]
  have havgR : (0 : ℝ) < ((st.avg_doc_length : ℚ) : ℝ) := by exact_mod_cast havg
  have hdlR : (0 : ℝ) < (dl : ℝ) := by exact_mod_cast hdl
  have hidf : 0 ≤ Real.log
      (((st.doc_count : ℝ) - (df : ℝ) + 0.5) / ((df : ℝ) + 0.5) + 1.0) := by
    apply Real.log_nonneg
    have hdfR : (df : ℝ) ≤ (st.doc_count : ℝ) := by exact_mod_cast hdf
    have h1 : (0 : ℝ) ≤ (st.doc_count : ℝ) - (df : ℝ) + 0.5 := by linarith
    have h2 : (0 : ℝ) < (df : ℝ) + 0.5 := by positivity
    have h3 : (0 : ℝ) ≤
        ((st.doc_count : ℝ) - (df : ℝ) + 0.5) / ((df : ℝ) + 0.5) :=
      div_nonneg h1 h2.le
    linarith
  have hq15 : ((1.5 : ℚ) : ℝ) = 1.5 := by norm_num
  have hq75 : ((0.75 : ℚ) : ℝ) = 0.75 := by norm_num
  rw [hq15, hq75]
  have hK : (0 : ℝ) <
      1.5 * (1 - 0.75 + 0.75 * ((dl : ℝ) / ((st.avg_doc_length : ℚ) : ℝ))) := by
    have hpos : (0 : ℝ) < (dl : ℝ) / ((st.avg_doc_length : ℚ) : ℝ) :=
      div_pos hdlR havgR
    nlinarith
  have htfR : (tf1 : ℝ) ≤ (tf2 : ℝ) := by exact_mod_cast htf
  have htf1 : (0 : ℝ) ≤ (tf1 : ℝ) := by positivity
  refine mul_le_mul_of_nonneg_left ?_ hidf
  have hd1 : (0 : ℝ) < (tf1 : ℝ) +
      1.5 * (1 - 0.75 + 0.75 * ((dl : ℝ) / ((st.avg_doc_length : ℚ) : ℝ))) := by
    linarith
  have hd2 : (0 : ℝ) < (tf2 : ℝ) +
      1.5 * (1 - 0.75 + 0.75 * ((dl : ℝ) / ((st.avg_doc_length : ℚ) : ℝ))) := by
    linarith
  rw [div_le_div_iff₀ hd1 hd2]
  nlinarith [mul_le_mul_of_nonneg_right htfR hK.le]

/-- A small concrete corpus state for the C8 witness. -/
def bm25WitnessState : BM25SparseEmbedder := { doc_count := 2, avg_doc_length := 3 }

/-- Witness for `bm25_score_monotone_in_tf` at a concrete state and
frequencies 1 ≤ 3. -/
theorem bm25_score_monotone_in_tf_witness :
    (bm25WitnessState.k1 = 1.5 ∧ bm25WitnessState.b = 0.75 ∧
      (0 : ℕ) < 2 ∧ 0 < bm25WitnessState.avg_doc_length ∧
      0 < bm25WitnessState.doc_count ∧ (1 : ℕ) ≤ 2 ∧ (1 : ℕ) ≤ 3) ∧
    compute_bm25_score bm25WitnessState 1 2 1 ≤
      compute_bm25_score bm25WitnessState 3 2 1 :=
  ⟨⟨rfl, rfl, by norm_num, by norm_num [bm25WitnessState],
      by norm_num [bm25WitnessState], by norm_num, by norm_num⟩,
    bm25_score_monotone_in_tf bm25WitnessState 1 3 2 1 rfl rfl (by norm_num)
      (by norm_num [bm25WitnessState]) (by norm_num [bm25WitnessState])
      (by norm_num [bm25WitnessState]) (by norm_num)⟩

end SpotMCP
